import Mathlib

/-!
Shallow embedding of the shop-phase simulation engine (src/shop.rs) of
super-auto-sim, together with proofs of the specification claims.

The repository ships only `shop.rs`; the collaborator modules it consumes
(`dice.rs`, `team.rs`, `friend.rs`, `food.rs`, `species.rs`, `params.rs`,
`modifier.rs`) are not present, so those interfaces are modelled from the
specification text (each such definition carries a doc comment saying so).
Everything in `shop.rs` itself is translated directly from the source.

Machine integers: `gold` is a Rust `usize`; we embed it as `Int` so that the
non-negativity invariant is a real statement about the guards in `step`
rather than a typing accident.  All other numeric fields only ever grow, so
they are plain `Nat`.

Randomness: the Rust `Dice` capability is embedded as an infinite stream
`Nat → Nat` together with a cursor; `roll n` reads the next stream value
modulo `n`.  Per the spec, rolling on an empty range must fail loudly, which
we model as the `Panic.emptyRoll` error.  Rust panics (assert failures,
unwraps of `None`) are modelled as `Panic.assertFail`.
-/

namespace SAS

/-- Team capacity.  Modelled from the spec: `params.rs` is not in src/; the
spec only requires a fixed capacity, we use 5. -/
def TEAM_SIZE : Nat := 5

/-- Shop friend-offer capacity.  Modelled from the spec (`params.rs` missing). -/
def SHOP_ANIMAL_COUNT : Nat := 3

/-- Shop food-offer capacity.  Modelled from the spec (`params.rs` missing). -/
def SHOP_FOOD_COUNT : Nat := 2

/-- Starting gold.  Modelled from the spec (`params.rs` missing): the spec
scenario starts a shop with gold = 10. -/
def DEFAULT_GOLD : Int := 10

/-- Species tags.  Modelled from the spec (`species.rs` missing): the engine
dispatches on Otter (on-buy), Beaver, Duck and Pig (on-sell); all other
species have no trigger effects and are represented by a numbered tag so
that distinct species stay distinguishable. -/
inductive Species where
  | Otter
  | Beaver
  | Duck
  | Pig
  | Other (tag : Nat)
deriving DecidableEq

/-- Food kinds, as consumed by `shop.rs` (`food.rs` missing): Apple and Honey. -/
inductive Food where
  | Apple
  | Honey
deriving DecidableEq

/-- Modifiers: only Honey is used by `shop.rs` (`modifier.rs` missing). -/
inductive Modifier where
  | Honey
deriving DecidableEq

/-- Friend record, as consumed by `shop.rs` (`friend.rs` missing): species,
health, attack, experience counter, optional modifier. -/
structure Friend where
  species : Species
  health : Nat
  attack : Nat
  exp : Nat
  modifier : Option Modifier
deriving DecidableEq

/-- Modelled from the spec: default per-species base health (`friend.rs`
missing; the spec scenario uses health 2 / attack 2 for a fresh Friend). -/
def Species.baseHealth : Species → Nat := fun _ => 2

/-- Modelled from the spec: default per-species base attack (`friend.rs`
missing). -/
def Species.baseAttack : Species → Nat := fun _ => 2

/-- Modelled from the spec: a freshly offered Friend has its species default
stats, zero experience and no modifier (`friend.rs` missing). -/
def Friend.new (s : Species) : Friend :=
  { species := s, health := s.baseHealth, attack := s.baseAttack
    exp := 0, modifier := none }

/-- Modelled from the spec: level is derived from the experience counter by a
fixed external formula (`friend.rs` missing); we use the standard
2-then-3-experience tiering. -/
def Friend.level (f : Friend) : Nat :=
  if f.exp < 2 then 1 else if f.exp < 5 then 2 else 3

/-! ### The canonical total order used to sort the offer arrays

Rust sorts `[Option<Friend>; N]` / `[Option<Food>; N]` with the derived
`Ord`, which is lexicographic with `None` before `Some`.  `friend.rs` is not
in src/, so the field order underlying the derived `Ord` is modelled from
the spec, which only requires the order to be deterministic and total; we
use the lexicographic order on (species, health, attack, exp, modifier). -/

/-- Numeric key of a species for the canonical order. -/
def Species.key : Species → Nat
  | .Otter => 0
  | .Beaver => 1
  | .Duck => 2
  | .Pig => 3
  | .Other t => 4 + t

/-- Numeric key of an optional modifier for the canonical order. -/
def modKey : Option Modifier → Nat
  | none => 0
  | some .Honey => 1

/-- Lexicographic sort key of a Friend. -/
def fkey (f : Friend) : Nat ×ₗ (Nat ×ₗ (Nat ×ₗ (Nat ×ₗ Nat))) :=
  toLex (f.species.key, toLex (f.health, toLex (f.attack, toLex (f.exp, modKey f.modifier))))

/-- Sort key of an optional Friend: `none` sorts before every `some`. -/
def okey (o : Option Friend) : WithBot (Nat ×ₗ (Nat ×ₗ (Nat ×ₗ (Nat ×ₗ Nat)))) :=
  match o with
  | none => ⊥
  | some f => (fkey f : WithBot _)

/-- The canonical order on optional Friends. -/
def fle (a b : Option Friend) : Prop := okey a ≤ okey b

instance : DecidableRel fle := fun a b => inferInstanceAs (Decidable (okey a ≤ okey b))

instance : IsTotal (Option Friend) fle := ⟨fun a b => le_total (okey a) (okey b)⟩

instance : IsTrans (Option Friend) fle := ⟨fun _ _ _ h h2 => le_trans h h2⟩

/-- Numeric key of a food for the canonical order. -/
def Food.key : Food → Nat
  | .Apple => 0
  | .Honey => 1

/-- Sort key of an optional Food: `none` sorts before every `some`. -/
def gkey (o : Option Food) : WithBot Nat :=
  match o with
  | none => ⊥
  | some f => (f.key : WithBot Nat)

/-- The canonical order on optional Foods. -/
def gle (a b : Option Food) : Prop := gkey a ≤ gkey b

instance : DecidableRel gle := fun a b => inferInstanceAs (Decidable (gkey a ≤ gkey b))

instance : IsTotal (Option Food) gle := ⟨fun a b => le_total (gkey a) (gkey b)⟩

instance : IsTrans (Option Food) gle := ⟨fun _ _ _ h h2 => le_trans h h2⟩

/-- Embedding of `self.shop_friends.sort()`. -/
def sortFriends (l : List (Option Friend)) : List (Option Friend) :=
  List.insertionSort fle l

/-- Embedding of `self.shop_foods.sort()`. -/
def sortFoods (l : List (Option Food)) : List (Option Food) :=
  List.insertionSort gle l

/-! ### Slot arrays -/

/-- Read a slot; indices used by the engine are always in range, so the
out-of-range default `none` is never observed under well-formedness. -/
def getSlot {α : Type} (l : List (Option α)) (i : Nat) : Option α := l.getD i none

/-- Write a slot (Rust array assignment / `take()`). -/
def setSlot {α : Type} (l : List (Option α)) (i : Nat) (x : Option α) : List (Option α) :=
  l.set i x

/-- Indices of the occupied slots, in increasing order. -/
def occIdxs {α : Type} (l : List (Option α)) : List Nat :=
  (List.range l.length).filter (fun i => (getSlot l i).isSome)

/-- Number of occupied slots. -/
def countOcc {α : Type} (l : List (Option α)) : Nat :=
  l.countP (fun o => o.isSome)

/-! ### The dice capability -/

/-- Reasons the engine can abort: rolling on an empty range (the dice must
fail loudly there, per the spec) or a Rust panic (assert! / unwrap). -/
inductive Panic where
  | emptyRoll
  | assertFail
deriving DecidableEq

/-- A dice source: an infinite stream of raw naturals, read at a cursor. -/
abbrev Dice := Nat → Nat

/-- A computation consuming dice: takes the stream and cursor, produces a
value and the new cursor, or aborts. -/
abbrev DiceM (α : Type) : Type := Dice → Nat → Except Panic (α × Nat)

/-- Return without consuming dice. -/
def dpure {α : Type} (a : α) : DiceM α := fun _ k => .ok (a, k)

/-- Abort. -/
def dfail {α : Type} (e : Panic) : DiceM α := fun _ _ => .error e

/-- Sequencing of dice computations. -/
def dbind {α β : Type} (m : DiceM α) (f : α → DiceM β) : DiceM β := fun σ k =>
  match m σ k with
  | .error e => .error e
  | .ok (a, k1) => f a σ k1

/-- Embedding of `rng.roll(0..n)`: uniform value in `[0, n)`, reading one
stream element; fails loudly on the empty range, per the spec contract for
the dice capability (`dice.rs` missing). -/
def roll (n : Nat) : DiceM Nat := fun σ k =>
  if n = 0 then .error .emptyRoll else .ok (σ k % n, k + 1)

/-- Rust `Option::unwrap`: panics on `None`. -/
def unwrapD {α : Type} (o : Option α) : DiceM α := fun _ k =>
  match o with
  | none => .error .assertFail
  | some a => .ok (a, k)

/-- Modelled from the spec: `pick_one` (`dice.rs` missing) returns a uniformly
random index among occupied entries, or none if all are empty; it consumes a
roll only when some entry is occupied (call sites ensure a positive range). -/
def pick_one {α : Type} (l : List (Option α)) : DiceM (Option Nat) :=
  if (occIdxs l).length = 0 then dpure none
  else dbind (roll (occIdxs l).length) fun v => dpure (some ((occIdxs l).getD v 0))

/-- Modelled from the spec: sampling of k distinct occupied indices without
replacement (`team.rs` missing), as used by `Team::random_friends`: repeatedly
pick uniformly among the remaining candidate indices. -/
def sampleDistinct : Nat → List Nat → DiceM (List Nat)
  | 0, _ => dpure []
  | n + 1, os =>
    if os.length = 0 then dpure []
    else dbind (roll os.length) fun v =>
      dbind (sampleDistinct n (os.eraseIdx v)) fun rest =>
      dpure (os.getD v 0 :: rest)

/-- Modelled from the spec: `Team::random_friends(n)` samples n distinct
occupied team slot indices uniformly without replacement (`team.rs` missing). -/
def random_friends (team : List (Option Friend)) (n : Nat) : DiceM (List Nat) :=
  sampleDistinct n (occIdxs team)

/-- Modelled from the spec: `Team::random_friend` picks a uniformly random
occupied team slot, or none (`team.rs` missing): same as `pick_one`. -/
def team_random_friend (team : List (Option Friend)) : DiceM (Option Nat) :=
  pick_one team

/-- First empty slot at or after index j, if any. -/
def findEmptyFrom (team : List (Option Friend)) (j : Nat) : Option Nat :=
  ((List.range team.length).filter
    (fun i => decide (j ≤ i) && (getSlot team i).isNone)).head?

/-- Modelled from the spec: `Team::make_space_at(j)` (`team.rs` missing) uses
"find first empty slot at-or-after index" semantics: if slot j is empty it
succeeds with no change; otherwise it finds the first empty slot e ≥ j and
shifts slots j..e-1 one step toward e, leaving slot j empty; if there is no
empty slot at or after j it fails, mutating nothing (preconditions are checked
before any mutation).  Returns the updated team on success. -/
def make_space_at (team : List (Option Friend)) (j : Nat) :
    Option (List (Option Friend)) :=
  if (getSlot team j).isNone then some team
  else
    match findEmptyFrom team j with
    | none => none
    | some e => some ((team.eraseIdx e).insertIdx j none)

/-- Modelled from the spec: `Species::sample` draws a species uniformly from
the fixed population table (`species.rs` missing). -/
def speciesPopulation : List Species :=
  [.Otter, .Beaver, .Duck, .Pig, .Other 0, .Other 1, .Other 2, .Other 3, .Other 4]

/-- Modelled from the spec: uniform species sample (`species.rs` missing). -/
def Species.sample : DiceM Species :=
  dbind (roll speciesPopulation.length) fun v =>
    dpure (speciesPopulation.getD v .Otter)

/-- Modelled from the spec: uniform food sample (`food.rs` missing). -/
def Food.sample : DiceM Food :=
  dbind (roll 2) fun v => dpure (if v = 0 then .Apple else .Honey)

/-- Lift a dice-free fallible computation. -/
def liftE {α : Type} (m : Except Panic α) : DiceM α := fun _ k =>
  match m with
  | .error e => .error e
  | .ok a => .ok (a, k)

/-- A dice computation is stable when every successful run advances the
cursor and its outcome depends only on the stream values it actually read:
replacing the stream by one that agrees on the consumed window reproduces
the same result.  This is the reproducibility contract of the engine. -/
def Stable {α : Type} (m : DiceM α) : Prop :=
  ∀ (σ1 σ2 : Dice) (k : Nat) (a : α) (k1 : Nat),
    m σ1 k = .ok (a, k1) →
    k ≤ k1 ∧ ((∀ j, k ≤ j → j < k1 → σ1 j = σ2 j) → m σ2 k = .ok (a, k1))

/-! ### The Shop (translated from src/shop.rs) -/

/-- Shop state: team, gold and the two offer arrays (shop.rs lines 37-45). -/
structure Shop where
  team : List (Option Friend)
  gold : Int
  shop_friends : List (Option Friend)
  shop_foods : List (Option Food)
deriving DecidableEq

/-- The six action kinds (shop.rs lines 13-21). -/
inductive ShopAction where
  | BuyFriend
  | BuyCombineFriend
  | SellFriend
  | BuyFood
  | CombineFriends
  | Reroll
deriving DecidableEq

/-- `ShopAction::sample` (shop.rs lines 24-34): one roll over six outcomes;
the panic arm for an out-of-range roll is kept (it is dead, since `roll 6`
yields a value below 6). -/
def ShopAction.sample : DiceM ShopAction :=
  dbind (roll 6) fun v =>
    if v = 0 then dpure .BuyFriend
    else if v = 1 then dpure .BuyCombineFriend
    else if v = 2 then dpure .SellFriend
    else if v = 3 then dpure .BuyFood
    else if v = 4 then dpure .CombineFriends
    else if v = 5 then dpure .Reroll
    else dfail .assertFail

/-- One freshly sampled row of friend offers (the per-slot loop in `reroll`,
shop.rs lines 61-63). -/
def sampleFriendRow : Nat → DiceM (List (Option Friend))
  | 0 => dpure []
  | n + 1 =>
    dbind Species.sample fun sp =>
    dbind (sampleFriendRow n) fun rest =>
    dpure (some (Friend.new sp) :: rest)

/-- One freshly sampled row of food offers (shop.rs lines 65-67). -/
def sampleFoodRow : Nat → DiceM (List (Option Food))
  | 0 => dpure []
  | n + 1 =>
    dbind Food.sample fun fd =>
    dbind (sampleFoodRow n) fun rest =>
    dpure (some fd :: rest)

/-- `Shop::reroll` (shop.rs lines 60-70): replaces every offer slot with a
fresh sample, then sorts both arrays. -/
def Shop.reroll (s : Shop) : DiceM Shop :=
  dbind (sampleFriendRow SHOP_ANIMAL_COUNT) fun fs =>
  dbind (sampleFoodRow SHOP_FOOD_COUNT) fun gs =>
  dpure { s with shop_friends := sortFriends fs, shop_foods := sortFoods gs }

/-- `Shop::new` (shop.rs lines 48-57): default gold, empty team, then a free
initial reroll. -/
def Shop.new : DiceM Shop :=
  Shop.reroll
    { team := List.replicate TEAM_SIZE none
      gold := DEFAULT_GOLD
      shop_friends := List.replicate SHOP_ANIMAL_COUNT none
      shop_foods := List.replicate SHOP_FOOD_COUNT none }

/-- `Shop::random_friend` (shop.rs lines 73-75). -/
def Shop.random_friend (s : Shop) : DiceM (Option Nat) := pick_one s.shop_friends

/-- `Shop::random_food` (shop.rs lines 78-80). -/
def Shop.random_food (s : Shop) : DiceM (Option Nat) := pick_one s.shop_foods

/-- Apply `+dh` health / `+da` attack to each listed team slot in order
(the `for i in ...` loops of the trigger hooks); unwrapping an empty slot
panics, as in the source. -/
def buffSlots (dh da : Nat) : List Nat → List (Option Friend) →
    Except Panic (List (Option Friend))
  | [], team => .ok team
  | i :: rest, team =>
    match getSlot team i with
    | none => .error .assertFail
    | some g =>
      buffSlots dh da rest
        (setSlot team i (some { g with health := g.health + dh, attack := g.attack + da }))

/-- `Shop::on_buy` (shop.rs lines 160-178): Otter buffs one random occupied
team slot by +1 health, +1 attack; every other species is a no-op.  The
triggering Friend is not in the team when this runs. -/
def Shop.on_buy (s : Shop) (f : Friend) : DiceM Shop :=
  if f.species = .Otter then
    dbind (random_friends s.team 1) fun is =>
    dbind (liftE (buffSlots 1 1 is s.team)) fun team2 =>
    dpure { s with team := team2 }
  else dpure s

/-- `Shop::on_sell` (shop.rs lines 182-219): Beaver buffs two random occupied
team slots by +level health; Duck buffs every occupied shop-friend slot by
+level health (note: with no re-sort of the array); Pig grants +level gold. -/
def Shop.on_sell (s : Shop) (a : Friend) : DiceM Shop :=
  if a.species = .Beaver then
    dbind (random_friends s.team 2) fun is =>
    dbind (liftE (buffSlots a.level 0 is s.team)) fun team2 =>
    dpure { s with team := team2 }
  else if a.species = .Duck then
    dpure { s with shop_friends :=
      s.shop_friends.map (Option.map (fun f => { f with health := f.health + a.level })) }
  else if a.species = .Pig then
    dpure { s with gold := s.gold + (a.level : Int) }
  else dpure s

/-- `Shop::on_sold` (shop.rs lines 221-223): a no-op for every species. -/
def Shop.on_sold (s : Shop) (_i : Nat) : Shop := s

/-- The `on_sold` notification loop of `sell_friend` (shop.rs lines 121-125):
every occupied slot other than the sold one, in ascending order. -/
def onSoldAll (s : Shop) (pos : Nat) : Shop :=
  (List.range TEAM_SIZE).foldl
    (fun acc i =>
      if i ≠ pos ∧ (getSlot acc.team i).isSome then acc.on_sold i else acc) s

/-- `Shop::buy_friend` (shop.rs lines 83-101): asserts gold ≥ 3 and an empty
target slot; deducts 3 gold, removes the offer, re-sorts, runs the on-buy
hook with the purchased Friend before it is in the team, then summons it at
the target slot.  (The source also reads the species for a trace line; the
embedding drops logging.) -/
def Shop.buy_friend (s : Shop) (shop_pos team_pos : Nat) : DiceM Shop :=
  if s.gold < 3 then dfail .assertFail
  else if (getSlot s.team team_pos).isSome then dfail .assertFail
  else
    dbind (unwrapD (getSlot s.shop_friends shop_pos)) fun friend =>
    dbind (Shop.on_buy
      { s with gold := s.gold - 3
               shop_friends := sortFriends (setSlot s.shop_friends shop_pos none) }
      friend) fun s2 =>
    dpure { s2 with team := setSlot s2.team team_pos (some friend) }

/-- The merge rule of `combine_friends` (shop.rs lines 107-109): the slot
resident `f` absorbs `g`: health = max + 1, attack = max + 1, experience + 1
(level-up handling is a TODO in the source and deliberately absent here). -/
def combineRule (f g : Friend) : Friend :=
  { f with health := max f.health g.health + 1
           attack := max f.attack g.attack + 1
           exp := f.exp + 1 }

/-- `Shop::combine_friends` (shop.rs lines 103-111): asserts the target slot
is occupied by a Friend of the same species, then merges `g` into it via
`combineRule`. -/
def Shop.combine_friends (s : Shop) (team_pos : Nat) (g : Friend) : Except Panic Shop :=
  match getSlot s.team team_pos with
  | none => .error .assertFail
  | some f =>
    if f.species = g.species then
      .ok { s with team := setSlot s.team team_pos (some (combineRule f g)) }
    else .error .assertFail

/-- `Shop::sell_friend` (shop.rs lines 113-126): removes the Friend, credits
gold by its level, runs the on-sell hook, then notifies every other occupied
slot. -/
def Shop.sell_friend (s : Shop) (team_pos : Nat) : DiceM Shop :=
  dbind (unwrapD (getSlot s.team team_pos)) fun a =>
  dbind (Shop.on_sell
    { s with team := setSlot s.team team_pos none
             gold := s.gold + (a.level : Int) } a) fun s2 =>
  dpure (onSoldAll s2 team_pos)

/-- The food-effect table of `buy_food` (shop.rs lines 145-155): Apple grants
+1 attack, +1 health; Honey sets the Honey modifier. -/
def applyFood (food : Food) (friend : Friend) : Friend :=
  match food with
  | .Apple => { friend with attack := friend.attack + 1, health := friend.health + 1 }
  | .Honey => { friend with modifier := some Modifier.Honey }

/-- `Shop::buy_food` (shop.rs lines 130-156): asserts both slots occupied,
removes the food, re-sorts the food array, deducts 3 gold (with no gold
check of its own) and applies the food effect to the target Friend. -/
def Shop.buy_food (s : Shop) (shop_pos team_pos : Nat) : Except Panic Shop :=
  match getSlot s.shop_foods shop_pos, getSlot s.team team_pos with
  | some food, some friend =>
    .ok { s with
      shop_foods := sortFoods (setSlot s.shop_foods shop_pos none)
      gold := s.gold - 3
      team := setSlot s.team team_pos (some (applyFood food friend)) }
  | _, _ => .error .assertFail

/-! ### The `step` action branches (shop.rs lines 225-412)

The CombineFriends branch builds a symmetric boolean target matrix from all
pairs i < j of occupied same-species team slots (shop.rs lines 301-317);
`combinable` is its closed form: entry (i, j) holds iff i ≠ j and both slots
hold Friends of equal species (the diagonal is never set by the loop). -/

/-- Closed form of `targets[i][j]` of the CombineFriends branch. -/
def combinable (team : List (Option Friend)) (i j : Nat) : Bool :=
  decide (i ≠ j) &&
    match getSlot team i, getSlot team j with
    | some a, some b => decide (a.species = b.species)
    | _, _ => false

/-- Closed form of `has_targets[i]` of the CombineFriends branch. -/
def hasTarget (team : List (Option Friend)) (i : Nat) : Bool :=
  (List.range TEAM_SIZE).any (fun j => combinable team i j)

/-- The slots `enumerate().filter()` ranges over in the first-stage pick:
indices with at least one combine partner, ascending. -/
def candIdxs (team : List (Option Friend)) : List Nat :=
  (List.range TEAM_SIZE).filter (fun i => hasTarget team i)

/-- The row `targets[i]` as a list of partner indices, ascending. -/
def partnersOf (team : List (Option Friend)) (i : Nat) : List Nat :=
  (List.range TEAM_SIZE).filter (fun j => combinable team i j)

/-- Closed form of `targets[i][j]` of the BuyCombineFriend branch
(shop.rs lines 351-365): shop offer i and team slot j hold equal species. -/
def shopCombinable (s : Shop) (i j : Nat) : Bool :=
  match getSlot s.shop_friends i, getSlot s.team j with
  | some a, some b => decide (a.species = b.species)
  | _, _ => false

/-- Closed form of `has_targets[i]` of the BuyCombineFriend branch. -/
def shopHasTarget (s : Shop) (i : Nat) : Bool :=
  (List.range TEAM_SIZE).any (fun j => shopCombinable s i j)

/-- Shop-offer indices with at least one matching team slot, ascending. -/
def shopCandIdxs (s : Shop) : List Nat :=
  (List.range SHOP_ANIMAL_COUNT).filter (fun i => shopHasTarget s i)

/-- The row `targets[i]` of the BuyCombineFriend branch, ascending. -/
def shopPartnersOf (s : Shop) (i : Nat) : List Nat :=
  (List.range TEAM_SIZE).filter (fun j => shopCombinable s i j)

/-- BuyFriend branch (shop.rs lines 228-246).  (The source reads the offer
species for a trace line only; the embedding drops logging.) -/
def stepBuyFriend (s : Shop) : DiceM (Shop × Bool) :=
  if s.gold < 3 then dpure (s, true)
  else
    dbind s.random_friend fun oi =>
    match oi with
    | none => dpure (s, true)
    | some i =>
      dbind (roll TEAM_SIZE) fun j =>
      match make_space_at s.team j with
      | none => dpure (s, true)
      | some team2 =>
        dbind (Shop.buy_friend { s with team := team2 } i j) fun s2 =>
        dpure (s2, false)

/-- BuyFood branch (shop.rs lines 248-268). -/
def stepBuyFood (s : Shop) : DiceM (Shop × Bool) :=
  if s.gold < 3 then dpure (s, true)
  else
    dbind s.random_food fun oi =>
    match oi with
    | none => dpure (s, true)
    | some i =>
      dbind (team_random_friend s.team) fun oj =>
      match oj with
      | none => dpure (s, true)
      | some j =>
        dbind (liftE (s.buy_food i j)) fun s2 =>
        dpure (s2, false)

/-- SellFriend branch (shop.rs lines 270-277). -/
def stepSellFriend (s : Shop) : DiceM (Shop × Bool) :=
  dbind (team_random_friend s.team) fun oj =>
  match oj with
  | none => dpure (s, true)
  | some j =>
    dbind (s.sell_friend j) fun s2 =>
    dpure (s2, false)

/-- Reroll branch (shop.rs lines 279-298).  Note: the source comment says the
shop is rerolled when slots are missing or some animal has non-default
power, but the code only tests for missing slots (`Option::is_none`). -/
def stepReroll (s : Shop) : DiceM (Shop × Bool) :=
  if s.gold = 0 then dpure (s, true)
  else if s.shop_foods.any Option.isNone || s.shop_friends.any Option.isNone then
    dbind s.reroll fun s2 =>
    dpure ({ s2 with gold := s2.gold - 1 }, false)
  else dpure (s, true)

/-- CombineFriends branch (shop.rs lines 300-342): the first-stage roll is
issued before the candidate count is known to be positive, exactly as in the
source (`.nth(rng.roll(0..num))`); the `None` arm of `nth` is kept even
though it is unreachable once the roll has succeeded. -/
def stepCombineFriends (s : Shop) : DiceM (Shop × Bool) :=
  dbind (roll (candIdxs s.team).length) fun v =>
  match (candIdxs s.team)[v]? with
  | none => dpure (s, true)
  | some i =>
    dbind (roll (partnersOf s.team i).length) fun w =>
    dbind (unwrapD (partnersOf s.team i)[w]?) fun j =>
    dbind (unwrapD (getSlot s.team i)) fun friend =>
    dbind (liftE (Shop.combine_friends { s with team := setSlot s.team i none } j friend))
      fun s2 =>
    dpure (s2, false)

/-- BuyCombineFriend branch (shop.rs lines 344-409): gold check, two-stage
pick (first-stage roll issued before the count is known positive, as in the
source), removal + re-sort of the offer, gold deduction, combine, then the
on-buy hook runs on the merged team Friend while its slot is temporarily
detached, and the Friend is reattached at the same slot. -/
def stepBuyCombineFriend (s : Shop) : DiceM (Shop × Bool) :=
  if s.gold < 3 then dpure (s, true)
  else
    dbind (roll (shopCandIdxs s).length) fun v =>
    match (shopCandIdxs s)[v]? with
    | none => dpure (s, true)
    | some i =>
      dbind (roll (shopPartnersOf s i).length) fun w =>
      dbind (unwrapD (shopPartnersOf s i)[w]?) fun j =>
      dbind (unwrapD (getSlot s.shop_friends i)) fun friend =>
      dbind (liftE (Shop.combine_friends
        { s with shop_friends := sortFriends (setSlot s.shop_friends i none)
                 gold := s.gold - 3 } j friend)) fun s2 =>
      dbind (unwrapD (getSlot s2.team j)) fun merged =>
      dbind (Shop.on_buy { s2 with team := setSlot s2.team j none } merged) fun s3 =>
      dpure ({ s3 with team := setSlot s3.team j (some merged) }, false)

/-- Dispatch of a sampled action to its branch (the match of `step`). -/
def Shop.dispatch (s : Shop) : ShopAction → DiceM (Shop × Bool)
  | .BuyFriend => stepBuyFriend s
  | .BuyCombineFriend => stepBuyCombineFriend s
  | .SellFriend => stepSellFriend s
  | .BuyFood => stepBuyFood s
  | .CombineFriends => stepCombineFriends s
  | .Reroll => stepReroll s

/-- `Shop::step` (shop.rs lines 225-412): sample an action, run its branch,
return the updated shop and the termination boolean. -/
def Shop.step (s : Shop) : DiceM (Shop × Bool) :=
  dbind ShopAction.sample fun a => s.dispatch a

/-- A driver run of at most `fuel` calls to `step`, recording the sampled
action trace, stopping when `step` signals termination. -/
def runTrace : Nat → Shop → DiceM (Shop × Bool × List ShopAction)
  | 0, s => dpure (s, false, [])
  | fuel + 1, s =>
    dbind ShopAction.sample fun a =>
    dbind (s.dispatch a) fun r =>
    match r with
    | (s2, true) => dpure (s2, true, [a])
    | (s2, false) =>
      dbind (runTrace fuel s2) fun t =>
      dpure (t.1, t.2.1, a :: t.2.2)

/-- Well-formedness: the three slot arrays have their fixed capacities. -/
def Shop.WF (s : Shop) : Prop :=
  s.team.length = TEAM_SIZE ∧
  s.shop_friends.length = SHOP_ANIMAL_COUNT ∧
  s.shop_foods.length = SHOP_FOOD_COUNT

instance (s : Shop) : Decidable s.WF := by
  unfold Shop.WF
  infer_instance

/-- The state reached from `shopTwinTeam` by a successful CombineFriends. -/
def shopTwinTeamAfter : Shop :=
  { team := [none, none,
             some { species := .Other 0, health := 8, attack := 3, exp := 1, modifier := none },
             none, none]
    gold := 5
    shop_friends := [none, none, none]
    shop_foods := [none, none] }

/-- The state reached from `shopPigMatch` by a successful BuyCombineFriend. -/
def shopPigMatchAfter : Shop :=
  { team := [some { species := .Pig, health := 3, attack := 6, exp := 1, modifier := none },
             none, none, none, none]
    gold := 7
    shop_friends := [none, none, none]
    shop_foods := [none, none] }

/-- The state reached from `shopLonePig` by a successful BuyFriend at slot 1. -/
def shopLonePigAfter : Shop :=
  { team := [none,
             some { species := .Pig, health := 2, attack := 2, exp := 0, modifier := none },
             none, none, none]
    gold := 7
    shop_friends := [none, none, none]
    shop_foods := [none, none] }

/-- Equality of engine results is decidable, so concrete runs can be checked
by evaluation. -/
instance {ε α : Type} [DecidableEq ε] [DecidableEq α] : DecidableEq (Except ε α) := fun a b =>
  match a, b with
  | .error e1, .error e2 =>
    if h : e1 = e2 then .isTrue (by rw [h]) else .isFalse (fun hc => h (by injection hc))
  | .error _, .ok _ => .isFalse (fun hc => Except.noConfusion hc)
  | .ok _, .error _ => .isFalse (fun hc => Except.noConfusion hc)
  | .ok a1, .ok a2 =>
    if h : a1 = a2 then .isTrue (by rw [h]) else .isFalse (fun hc => h (by injection hc))

/-! ### Concrete states used to instantiate the theorems -/

/-- A shop with no gold and empty arrays. -/
def shopEmptyGold0 : Shop :=
  { team := [none, none, none, none, none]
    gold := 0
    shop_friends := [none, none, none]
    shop_foods := [none, none] }

/-- A shop whose team holds two same-species Friends (one with boosted
health) and nothing else. -/
def shopTwinTeam : Shop :=
  { team := [some (Friend.new (.Other 0)), none,
             some { Friend.new (.Other 0) with health := 7 }, none, none]
    gold := 5
    shop_friends := [none, none, none]
    shop_foods := [none, none] }

/-- A shop offering a boosted Pig while a fresh Pig sits on the team. -/
def shopPigMatch : Shop :=
  { team := [some (Friend.new .Pig), none, none, none, none]
    gold := 10
    shop_friends := [none, none, some { Friend.new .Pig with attack := 5 }]
    shop_foods := [none, none] }

/-- A shop with every offer slot full, one offered Friend having non-default
(boosted) health, and positive gold. -/
def shopFullBoosted : Shop :=
  { team := [none, none, none, none, none]
    gold := 5
    shop_friends := [some (Friend.new .Otter),
                     some { Friend.new .Otter with health := 9 },
                     some (Friend.new .Pig)]
    shop_foods := [some .Apple, some .Honey] }

/-- A shop offering a single Pig to an empty team. -/
def shopLonePig : Shop :=
  { team := [none, none, none, none, none]
    gold := 10
    shop_friends := [none, none, some (Friend.new .Pig)]
    shop_foods := [none, none] }

/-! ## Inversion lemmas for the dice monad -/

theorem dpure_ok {α : Type} {a b : α} {σ : Dice} {k k2 : Nat} :
    dpure a σ k = .ok (b, k2) ↔ a = b ∧ k = k2 := by
  unfold dpure
  constructor
  · intro h
    injection h with h1
    injection h1 with h1 h2
    exact ⟨h1, h2⟩
  · rintro ⟨rfl, rfl⟩
    rfl

theorem dpure_error {α : Type} {a : α} {σ : Dice} {k : Nat} {e : Panic} :
    dpure a σ k = .error e ↔ False := by
  unfold dpure
  simp

theorem dfail_ok {α : Type} {e : Panic} {σ : Dice} {k : Nat} {a : α} {k1 : Nat} :
    dfail e σ k = .ok (a, k1) ↔ False := by
  unfold dfail
  simp

theorem dfail_error {α : Type} {e e0 : Panic} {σ : Dice} {k : Nat} :
    (dfail e0 σ k : Except Panic (α × Nat)) = .error e ↔ e0 = e := by
  unfold dfail
  simp

theorem dbind_ok {α β : Type} {m : DiceM α} {f : α → DiceM β} {σ : Dice}
    {k : Nat} {b : β} {k2 : Nat} :
    dbind m f σ k = .ok (b, k2) ↔
      ∃ a k1, m σ k = .ok (a, k1) ∧ f a σ k1 = .ok (b, k2) := by
  unfold dbind
  cases h : m σ k with
  | error e => simp
  | ok p =>
    cases p with
    | mk a k1 =>
      constructor
      · intro hf
        exact ⟨a, k1, rfl, hf⟩
      · rintro ⟨a2, k12, heq, hf⟩
        injection heq with heq
        injection heq with h1 h2
        subst h1
        subst h2
        exact hf

theorem dbind_error {α β : Type} {m : DiceM α} {f : α → DiceM β} {σ : Dice}
    {k : Nat} {e : Panic} :
    dbind m f σ k = .error e ↔
      m σ k = .error e ∨ ∃ a k1, m σ k = .ok (a, k1) ∧ f a σ k1 = .error e := by
  unfold dbind
  cases h : m σ k with
  | error e1 => simp
  | ok p =>
    cases p with
    | mk a k1 =>
      constructor
      · intro hf
        exact Or.inr ⟨a, k1, rfl, hf⟩
      · rintro (hcontra | ⟨a2, k12, heq, hf⟩)
        · exact absurd hcontra (by simp)
        · injection heq with heq
          injection heq with h1 h2
          subst h1
          subst h2
          exact hf

theorem roll_ok {n : Nat} {σ : Dice} {k v k1 : Nat} :
    roll n σ k = .ok (v, k1) ↔ n ≠ 0 ∧ σ k % n = v ∧ k + 1 = k1 := by
  unfold roll
  split
  · simp_all
  · simp_all

theorem roll_error {n : Nat} {σ : Dice} {k : Nat} {e : Panic} :
    roll n σ k = .error e ↔ n = 0 ∧ e = .emptyRoll := by
  unfold roll
  split
  · simp_all [eq_comm]
  · simp_all

theorem unwrapD_ok {α : Type} {o : Option α} {σ : Dice} {k : Nat} {a : α} {k1 : Nat} :
    unwrapD o σ k = .ok (a, k1) ↔ o = some a ∧ k = k1 := by
  unfold unwrapD
  cases o <;> simp

theorem unwrapD_error {α : Type} {o : Option α} {σ : Dice} {k : Nat} {e : Panic} :
    unwrapD o σ k = .error e ↔ o = none ∧ e = .assertFail := by
  unfold unwrapD
  cases o <;> simp [eq_comm]

theorem liftE_ok {α : Type} {m : Except Panic α} {σ : Dice} {k : Nat} {a : α} {k1 : Nat} :
    liftE m σ k = .ok (a, k1) ↔ m = .ok a ∧ k = k1 := by
  unfold liftE
  cases m <;> simp

theorem liftE_error {α : Type} {m : Except Panic α} {σ : Dice} {k : Nat} {e : Panic} :
    liftE m σ k = .error e ↔ m = .error e := by
  unfold liftE
  cases m <;> simp

/-! ## Slot array lemmas -/

theorem getSlot_some_lt {α : Type} {l : List (Option α)} {i : Nat} {a : α}
    (h : getSlot l i = some a) : i < l.length := by
  by_contra hc
  push_neg at hc
  unfold getSlot at h
  rw [List.getD_eq_default _ _ hc] at h
  exact absurd h (by simp)

theorem getSlot_setSlot_self {α : Type} {l : List (Option α)} {i : Nat}
    (x : Option α) (h : i < l.length) : getSlot (setSlot l i x) i = x := by
  induction l generalizing i with
  | nil => simp at h
  | cons hd tl ih =>
    cases i with
    | zero => rfl
    | succ n =>
      simp only [List.length_cons] at h
      simpa [getSlot, setSlot] using ih (i := n) (by omega)

theorem getSlot_setSlot_ne {α : Type} {l : List (Option α)} {i j : Nat}
    (x : Option α) (h : i ≠ j) : getSlot (setSlot l i x) j = getSlot l j := by
  induction l generalizing i j with
  | nil => rfl
  | cons hd tl ih =>
    cases i with
    | zero =>
      cases j with
      | zero => exact absurd rfl h
      | succ m => rfl
    | succ n =>
      cases j with
      | zero => rfl
      | succ m => simpa [getSlot, setSlot] using ih (i := n) (j := m) (by omega)

theorem length_setSlot {α : Type} (l : List (Option α)) (i : Nat) (x : Option α) :
    (setSlot l i x).length = l.length := by
  simp [setSlot]

theorem countOcc_set_some_of_some {α : Type} {l : List (Option α)} {i : Nat} {b : α}
    (c : α) (h : getSlot l i = some b) :
    countOcc (setSlot l i (some c)) = countOcc l := by
  induction l generalizing i with
  | nil => rfl
  | cons hd tl ih =>
    cases i with
    | zero =>
      simp [getSlot] at h
      simp [countOcc, setSlot, List.countP_cons, h]
    | succ n =>
      have := ih (i := n) (by simpa [getSlot] using h)
      simp only [countOcc, setSlot, List.set] at this ⊢
      simp [List.countP_cons, this]

theorem countOcc_set_none_of_some {α : Type} {l : List (Option α)} {i : Nat} {b : α}
    (h : getSlot l i = some b) :
    countOcc (setSlot l i none) + 1 = countOcc l := by
  induction l generalizing i with
  | nil => simp [getSlot] at h
  | cons hd tl ih =>
    cases i with
    | zero =>
      simp [getSlot] at h
      simp [countOcc, setSlot, List.countP_cons, h]
    | succ n =>
      have := ih (i := n) (by simpa [getSlot] using h)
      simp only [countOcc, setSlot, List.set] at this ⊢
      simp only [List.countP_cons]
      omega

theorem countOcc_set_some_of_none {α : Type} {l : List (Option α)} {i : Nat}
    (c : α) (h : getSlot l i = none) (hl : i < l.length) :
    countOcc (setSlot l i (some c)) = countOcc l + 1 := by
  induction l generalizing i with
  | nil => simp at hl
  | cons hd tl ih =>
    cases i with
    | zero =>
      simp [getSlot] at h
      simp [countOcc, setSlot, List.countP_cons, h]
    | succ n =>
      have := ih (i := n) (by simpa [getSlot] using h) (by simpa using Nat.lt_of_succ_lt_succ hl)
      simp only [countOcc, setSlot, List.set] at this ⊢
      simp only [List.countP_cons]
      omega

theorem countOcc_sortFriends (l : List (Option Friend)) :
    countOcc (sortFriends l) = countOcc l := by
  unfold countOcc sortFriends
  exact (List.perm_insertionSort fle l).countP_eq _

theorem length_sortFriends (l : List (Option Friend)) :
    (sortFriends l).length = l.length := by
  unfold sortFriends
  exact (List.perm_insertionSort fle l).length_eq

theorem length_sortFoods (l : List (Option Food)) :
    (sortFoods l).length = l.length := by
  unfold sortFoods
  exact (List.perm_insertionSort gle l).length_eq

theorem sorted_sortFriends (l : List (Option Friend)) :
    List.Sorted fle (sortFriends l) :=
  List.sorted_insertionSort fle l

theorem sorted_sortFoods (l : List (Option Food)) :
    List.Sorted gle (sortFoods l) :=
  List.sorted_insertionSort gle l

/-! ## Order preservation of the Duck on-sell buff -/

theorem fle_bump (δ : Nat) {a b : Option Friend} (h : fle a b) :
    fle (a.map fun f => { f with health := f.health + δ })
        (b.map fun f => { f with health := f.health + δ }) := by
  cases a with
  | none => simp [fle, okey]
  | some fa =>
    cases b with
    | none => exact absurd h (by simp [fle, okey])
    | some fb =>
      simp only [fle, okey, Option.map_some', WithBot.coe_le_coe] at h ⊢
      unfold fkey at h ⊢
      rw [Prod.Lex.le_iff] at h ⊢
      rcases h with h | ⟨h1, h2⟩
      · exact Or.inl h
      · refine Or.inr ⟨h1, ?_⟩
        rw [Prod.Lex.le_iff] at h2 ⊢
        rcases h2 with h2 | ⟨h2a, h2b⟩
        · exact Or.inl (by simp only at h2 ⊢; omega)
        · exact Or.inr ⟨by simp only at h2a ⊢; omega, h2b⟩

theorem sorted_map_bump (δ : Nat) {l : List (Option Friend)}
    (h : List.Sorted fle l) :
    List.Sorted fle (l.map (Option.map fun f => { f with health := f.health + δ })) :=
  List.Pairwise.map _ (fun _ _ hab => fle_bump δ hab) h

/-! ## Facts about buffSlots and the trigger hooks -/

theorem buffSlots_error {dh da : Nat} :
    ∀ {is : List Nat} {team : List (Option Friend)} {e : Panic},
      buffSlots dh da is team = .error e → e = .assertFail := by
  intro is
  induction is with
  | nil =>
    intro team e h
    unfold buffSlots at h
    exact absurd h (by simp)
  | cons i rest ih =>
    intro team e h
    unfold buffSlots at h
    split at h
    · injection h with h
      exact h.symm
    · exact ih h

theorem buffSlots_ok_length {dh da : Nat} :
    ∀ {is : List Nat} {team team2 : List (Option Friend)},
      buffSlots dh da is team = .ok team2 → team2.length = team.length := by
  intro is
  induction is with
  | nil =>
    intro team team2 h
    unfold buffSlots at h
    injection h with h
    rw [h]
  | cons i rest ih =>
    intro team team2 h
    unfold buffSlots at h
    split at h
    · exact absurd h (by simp)
    · have := ih h
      rw [this, length_setSlot]

theorem buffSlots_ok_none {dh da : Nat} :
    ∀ {is : List Nat} {team team2 : List (Option Friend)},
      buffSlots dh da is team = .ok team2 →
      ∀ i0, getSlot team i0 = none → getSlot team2 i0 = none := by
  intro is
  induction is with
  | nil =>
    intro team team2 h i0 h0
    unfold buffSlots at h
    injection h with h
    rw [← h]
    exact h0
  | cons i rest ih =>
    intro team team2 h i0 h0
    unfold buffSlots at h
    split at h
    · exact absurd h (by simp)
    · next g hg =>
      have hne : i ≠ i0 := by
        intro hcontra
        rw [hcontra] at hg
        rw [h0] at hg
        exact absurd hg (by simp)
      exact ih h i0 (by rw [getSlot_setSlot_ne _ hne]; exact h0)

theorem buffSlots_ok_countOcc {dh da : Nat} :
    ∀ {is : List Nat} {team team2 : List (Option Friend)},
      buffSlots dh da is team = .ok team2 → countOcc team2 = countOcc team := by
  intro is
  induction is with
  | nil =>
    intro team team2 h
    unfold buffSlots at h
    injection h with h
    rw [h]
  | cons i rest ih =>
    intro team team2 h
    unfold buffSlots at h
    split at h
    · exact absurd h (by simp)
    · next g hg =>
      rw [ih h]
      exact countOcc_set_some_of_some _ hg

theorem foldl_const {α β : Type} (l : List β) (a : α) :
    l.foldl (fun acc _ => acc) a = a := by
  induction l generalizing a with
  | nil => rfl
  | cons hd tl ih => exact ih a

theorem onSoldAll_eq (s : Shop) (pos : Nat) : onSoldAll s pos = s := by
  unfold onSoldAll Shop.on_sold
  simp only [ite_self]
  exact foldl_const _ _

theorem on_buy_ok_facts {s : Shop} {f : Friend} {σ : Dice} {k : Nat} {s2 : Shop} {k2 : Nat}
    (h : s.on_buy f σ k = .ok (s2, k2)) :
    s2.gold = s.gold ∧ s2.shop_friends = s.shop_friends ∧ s2.shop_foods = s.shop_foods ∧
    s2.team.length = s.team.length ∧ countOcc s2.team = countOcc s.team ∧
    (∀ i, getSlot s.team i = none → getSlot s2.team i = none) := by
  unfold Shop.on_buy at h
  split at h
  · rcases dbind_ok.mp h with ⟨is, ka, _, h2⟩
    rcases dbind_ok.mp h2 with ⟨team2, kb, hb, h3⟩
    obtain ⟨hbuff, -⟩ := liftE_ok.mp hb
    obtain ⟨hs2, -⟩ := dpure_ok.mp h3
    rw [← hs2]
    exact ⟨rfl, rfl, rfl, buffSlots_ok_length hbuff, buffSlots_ok_countOcc hbuff,
      fun i h0 => buffSlots_ok_none hbuff i h0⟩
  · obtain ⟨hs2, -⟩ := dpure_ok.mp h
    rw [← hs2]
    exact ⟨rfl, rfl, rfl, rfl, rfl, fun i h0 => h0⟩

theorem sampleDistinct_ne_error :
    ∀ (n : Nat) (os : List Nat) (σ : Dice) (k : Nat) (e : Panic),
      sampleDistinct n os σ k ≠ .error e := by
  intro n
  induction n with
  | zero =>
    intro os σ k e
    unfold sampleDistinct
    simp [dpure]
  | succ m ih =>
    intro os σ k e h
    unfold sampleDistinct at h
    split at h
    · exact absurd h (by simp [dpure])
    · rcases dbind_error.mp h with h1 | ⟨v, k1, _, h2⟩
      · rcases roll_error.mp h1 with ⟨h0, _⟩
        simp_all
      · rcases dbind_error.mp h2 with h2a | ⟨rest, k3, _, h2b⟩
        · exact ih _ _ _ _ h2a
        · exact absurd h2b (by simp [dpure])

theorem random_friends_ne_error {team : List (Option Friend)} {n : Nat}
    {σ : Dice} {k : Nat} {e : Panic} :
    random_friends team n σ k ≠ .error e :=
  sampleDistinct_ne_error n (occIdxs team) σ k e

theorem pick_one_ne_error {α : Type} {l : List (Option α)} {σ : Dice} {k : Nat}
    {e : Panic} : pick_one l σ k ≠ .error e := by
  unfold pick_one
  split
  · simp [dpure]
  · intro h
    rcases dbind_error.mp h with h1 | ⟨v, k1, _, h2⟩
    · rcases roll_error.mp h1 with ⟨h0, _⟩
      simp_all
    · exact absurd h2 (by simp [dpure])

theorem on_buy_error {s : Shop} {f : Friend} {σ : Dice} {k : Nat} {e : Panic}
    (h : s.on_buy f σ k = .error e) : e = .assertFail := by
  unfold Shop.on_buy at h
  split at h
  · rcases dbind_error.mp h with h1 | ⟨is, ka, _, h2⟩
    · exact absurd h1 random_friends_ne_error
    · rcases dbind_error.mp h2 with h2a | ⟨team2, kb, _, h2b⟩
      · exact buffSlots_error (liftE_error.mp h2a)
      · exact absurd h2b (by simp [dpure])
  · exact absurd h (by simp [dpure])

theorem on_sell_ok_facts {s : Shop} {a : Friend} {σ : Dice} {k : Nat} {s2 : Shop} {k2 : Nat}
    (h : s.on_sell a σ k = .ok (s2, k2)) :
    s.gold ≤ s2.gold ∧ s2.shop_foods = s.shop_foods ∧
    s2.shop_friends.length = s.shop_friends.length ∧
    (List.Sorted fle s.shop_friends → List.Sorted fle s2.shop_friends) := by
  unfold Shop.on_sell at h
  split at h
  · rcases dbind_ok.mp h with ⟨is, ka, _, h2⟩
    rcases dbind_ok.mp h2 with ⟨team2, kb, hb, h3⟩
    obtain ⟨hs2, -⟩ := dpure_ok.mp h3
    rw [← hs2]
    exact ⟨le_refl _, rfl, rfl, fun hs => hs⟩
  · split at h
    · obtain ⟨hs2, -⟩ := dpure_ok.mp h
      rw [← hs2]
      refine ⟨le_refl _, rfl, by simp, fun hs => sorted_map_bump _ hs⟩
    · split at h
      · obtain ⟨hs2, -⟩ := dpure_ok.mp h
        rw [← hs2]
        refine ⟨?_, rfl, rfl, fun hs => hs⟩
        simp only
        omega
      · obtain ⟨hs2, -⟩ := dpure_ok.mp h
        rw [← hs2]
        exact ⟨le_refl _, rfl, rfl, fun hs => hs⟩

theorem on_sell_error {s : Shop} {a : Friend} {σ : Dice} {k : Nat} {e : Panic}
    (h : s.on_sell a σ k = .error e) : e = .assertFail := by
  unfold Shop.on_sell at h
  split at h
  · rcases dbind_error.mp h with h1 | ⟨is, ka, _, h2⟩
    · exact absurd h1 random_friends_ne_error
    · rcases dbind_error.mp h2 with h2a | ⟨team2, kb, _, h2b⟩
      · exact buffSlots_error (liftE_error.mp h2a)
      · exact absurd h2b (by simp [dpure])
  · split at h
    · exact absurd h (by simp [dpure])
    · split at h
      · exact absurd h (by simp [dpure])
      · exact absurd h (by simp [dpure])

/-! ## Inversion lemmas for the shop primitives -/

theorem mem_occIdxs {α : Type} {l : List (Option α)} {i : Nat} :
    i ∈ occIdxs l ↔ i < l.length ∧ (getSlot l i).isSome = true := by
  unfold occIdxs
  rw [List.mem_filter, List.mem_range]

theorem pick_one_ok_some {α : Type} {l : List (Option α)} {σ : Dice} {k i k1 : Nat}
    (h : pick_one l σ k = .ok (some i, k1)) :
    i < l.length ∧ (getSlot l i).isSome = true := by
  unfold pick_one at h
  split at h
  · obtain ⟨hcontra, -⟩ := dpure_ok.mp h
    exact absurd hcontra (by simp)
  · next hlen =>
    rcases dbind_ok.mp h with ⟨v, ka, hr, h2⟩
    obtain ⟨-, hv, -⟩ := roll_ok.mp hr
    obtain ⟨hi, -⟩ := dpure_ok.mp h2
    injection hi with hi
    have hvlt : v < (occIdxs l).length := by
      rw [← hv]
      exact Nat.mod_lt _ (by omega)
    rw [List.getD_eq_getElem _ _ hvlt] at hi
    have hmem : i ∈ occIdxs l := hi ▸ List.getElem_mem hvlt
    exact mem_occIdxs.mp hmem

theorem combine_friends_ok_inv {s : Shop} {j : Nat} {g : Friend} {s2 : Shop}
    (h : s.combine_friends j g = .ok s2) :
    ∃ f, getSlot s.team j = some f ∧ f.species = g.species ∧
      s2 = { s with team := setSlot s.team j (some (combineRule f g)) } := by
  unfold Shop.combine_friends at h
  split at h
  · exact absurd h (by simp)
  · rename_i f hf
    split at h
    · rename_i hsp
      injection h with h
      exact ⟨f, hf, hsp, h.symm⟩
    · exact absurd h (by simp)

theorem combine_friends_error {s : Shop} {j : Nat} {g : Friend} {e : Panic}
    (h : s.combine_friends j g = .error e) : e = .assertFail := by
  unfold Shop.combine_friends at h
  split at h
  · injection h with h
    exact h.symm
  · split at h
    · exact absurd h (by simp)
    · injection h with h
      exact h.symm

theorem buy_food_ok_inv {s : Shop} {i j : Nat} {s2 : Shop}
    (h : s.buy_food i j = .ok s2) :
    ∃ food friend, getSlot s.shop_foods i = some food ∧ getSlot s.team j = some friend ∧
      s2 = { s with
        shop_foods := sortFoods (setSlot s.shop_foods i none)
        gold := s.gold - 3
        team := setSlot s.team j (some (applyFood food friend)) } := by
  unfold Shop.buy_food at h
  split at h
  · rename_i food friend hfood hfriend
    injection h with h
    exact ⟨food, friend, hfood, hfriend, h.symm⟩
  · exact absurd h (by simp)

theorem buy_food_error {s : Shop} {i j : Nat} {e : Panic}
    (h : s.buy_food i j = .error e) : e = .assertFail := by
  unfold Shop.buy_food at h
  split at h
  · exact absurd h (by simp)
  · injection h with h
    exact h.symm

theorem buy_friend_ok_inv {s : Shop} {i j : Nat} {σ : Dice} {k : Nat} {s2 : Shop} {k2 : Nat}
    (h : s.buy_friend i j σ k = .ok (s2, k2)) :
    ¬ s.gold < 3 ∧ getSlot s.team j = none ∧
    ∃ f smid, getSlot s.shop_friends i = some f ∧
      Shop.on_buy
        { s with gold := s.gold - 3
                 shop_friends := sortFriends (setSlot s.shop_friends i none) } f σ k =
        .ok (smid, k2) ∧
      s2 = { smid with team := setSlot smid.team j (some f) } := by
  unfold Shop.buy_friend at h
  split at h
  · exact absurd h (by simp [dfail])
  · split at h
    · exact absurd h (by simp [dfail])
    · rename_i hg hocc
      rcases dbind_ok.mp h with ⟨f, ka, hu, h2⟩
      obtain ⟨hf, hk⟩ := unwrapD_ok.mp hu
      rcases dbind_ok.mp h2 with ⟨smid, kb, hob, h3⟩
      obtain ⟨hs2, hk2⟩ := dpure_ok.mp h3
      refine ⟨hg, ?_, f, smid, hf, ?_, ?_⟩
      · cases hgt : getSlot s.team j with
        | none => rfl
        | some x => rw [hgt] at hocc; exact absurd rfl hocc
      · rw [← hk] at hob
        rw [hk2] at hob
        exact hob
      · rw [← hs2]

theorem buy_friend_error {s : Shop} {i j : Nat} {σ : Dice} {k : Nat} {e : Panic}
    (h : s.buy_friend i j σ k = .error e) : e = .assertFail := by
  unfold Shop.buy_friend at h
  split at h
  · injection h with h
    exact h.symm
  · split at h
    · injection h with h
      exact h.symm
    · rcases dbind_error.mp h with h1 | ⟨f, ka, _, h2⟩
      · exact (unwrapD_error.mp h1).2
      · rcases dbind_error.mp h2 with h2a | ⟨smid, kb, _, h2b⟩
        · exact on_buy_error h2a
        · exact absurd h2b (by simp [dpure])

theorem sell_friend_ok_inv {s : Shop} {j : Nat} {σ : Dice} {k : Nat} {s2 : Shop} {k2 : Nat}
    (h : s.sell_friend j σ k = .ok (s2, k2)) :
    ∃ a, getSlot s.team j = some a ∧
      Shop.on_sell
        { s with team := setSlot s.team j none
                 gold := s.gold + (a.level : Int) } a σ k = .ok (s2, k2) := by
  unfold Shop.sell_friend at h
  rcases dbind_ok.mp h with ⟨a, ka, hu, h2⟩
  obtain ⟨ha, hk⟩ := unwrapD_ok.mp hu
  rcases dbind_ok.mp h2 with ⟨smid, kb, hos, h3⟩
  obtain ⟨hs2, hk2⟩ := dpure_ok.mp h3
  rw [onSoldAll_eq] at hs2
  rw [← hk] at hos
  rw [hs2, hk2] at hos
  exact ⟨a, ha, hos⟩

theorem sell_friend_error {s : Shop} {j : Nat} {σ : Dice} {k : Nat} {e : Panic}
    (h : s.sell_friend j σ k = .error e) : e = .assertFail := by
  unfold Shop.sell_friend at h
  rcases dbind_error.mp h with h1 | ⟨a, ka, _, h2⟩
  · exact (unwrapD_error.mp h1).2
  · rcases dbind_error.mp h2 with h2a | ⟨smid, kb, _, h2b⟩
    · exact on_sell_error h2a
    · exact absurd h2b (by simp [dpure])

theorem sampleFriendRow_ok_length :
    ∀ {n : Nat} {σ : Dice} {k : Nat} {fs : List (Option Friend)} {k1 : Nat},
      sampleFriendRow n σ k = .ok (fs, k1) → fs.length = n := by
  intro n
  induction n with
  | zero =>
    intro σ k fs k1 h
    unfold sampleFriendRow at h
    obtain ⟨hfs, -⟩ := dpure_ok.mp h
    rw [← hfs]
    rfl
  | succ m ih =>
    intro σ k fs k1 h
    unfold sampleFriendRow at h
    rcases dbind_ok.mp h with ⟨sp, ka, _, h2⟩
    rcases dbind_ok.mp h2 with ⟨rest, kb, hrest, h3⟩
    obtain ⟨hfs, -⟩ := dpure_ok.mp h3
    rw [← hfs]
    simp [ih hrest]

theorem sampleFoodRow_ok_length :
    ∀ {n : Nat} {σ : Dice} {k : Nat} {gs : List (Option Food)} {k1 : Nat},
      sampleFoodRow n σ k = .ok (gs, k1) → gs.length = n := by
  intro n
  induction n with
  | zero =>
    intro σ k gs k1 h
    unfold sampleFoodRow at h
    obtain ⟨hgs, -⟩ := dpure_ok.mp h
    rw [← hgs]
    rfl
  | succ m ih =>
    intro σ k gs k1 h
    unfold sampleFoodRow at h
    rcases dbind_ok.mp h with ⟨fd, ka, _, h2⟩
    rcases dbind_ok.mp h2 with ⟨rest, kb, hrest, h3⟩
    obtain ⟨hgs, -⟩ := dpure_ok.mp h3
    rw [← hgs]
    simp [ih hrest]

theorem reroll_ok_facts {s : Shop} {σ : Dice} {k : Nat} {s2 : Shop} {k2 : Nat}
    (h : s.reroll σ k = .ok (s2, k2)) :
    s2.gold = s.gold ∧ s2.team = s.team ∧
    List.Sorted fle s2.shop_friends ∧ List.Sorted gle s2.shop_foods ∧
    s2.shop_friends.length = SHOP_ANIMAL_COUNT ∧
    s2.shop_foods.length = SHOP_FOOD_COUNT := by
  unfold Shop.reroll at h
  rcases dbind_ok.mp h with ⟨fs, ka, hfs, h2⟩
  rcases dbind_ok.mp h2 with ⟨gs, kb, hgs, h3⟩
  obtain ⟨hs2, -⟩ := dpure_ok.mp h3
  rw [← hs2]
  refine ⟨rfl, rfl, sorted_sortFriends fs, sorted_sortFoods gs, ?_, ?_⟩
  · simp only [length_sortFriends]
    exact sampleFriendRow_ok_length hfs
  · simp only [length_sortFoods]
    exact sampleFoodRow_ok_length hgs

theorem species_sample_ne_error {σ : Dice} {k : Nat} {e : Panic} :
    Species.sample σ k ≠ .error e := by
  unfold Species.sample
  intro h
  rcases dbind_error.mp h with h1 | ⟨v, k1, _, h2⟩
  · rcases roll_error.mp h1 with ⟨h0, -⟩
    simp [speciesPopulation] at h0
  · exact absurd h2 (by simp [dpure])

theorem food_sample_ne_error {σ : Dice} {k : Nat} {e : Panic} :
    Food.sample σ k ≠ .error e := by
  unfold Food.sample
  intro h
  rcases dbind_error.mp h with h1 | ⟨v, k1, _, h2⟩
  · rcases roll_error.mp h1 with ⟨h0, -⟩
    omega
  · exact absurd h2 (by simp [dpure])

theorem sampleFriendRow_ne_error :
    ∀ {n : Nat} {σ : Dice} {k : Nat} {e : Panic}, sampleFriendRow n σ k ≠ .error e := by
  intro n
  induction n with
  | zero =>
    intro σ k e
    unfold sampleFriendRow
    simp [dpure]
  | succ m ih =>
    intro σ k e h
    unfold sampleFriendRow at h
    rcases dbind_error.mp h with h1 | ⟨sp, ka, _, h2⟩
    · exact species_sample_ne_error h1
    · rcases dbind_error.mp h2 with h2a | ⟨rest, kb, _, h2b⟩
      · exact ih h2a
      · exact absurd h2b (by simp [dpure])

theorem sampleFoodRow_ne_error :
    ∀ {n : Nat} {σ : Dice} {k : Nat} {e : Panic}, sampleFoodRow n σ k ≠ .error e := by
  intro n
  induction n with
  | zero =>
    intro σ k e
    unfold sampleFoodRow
    simp [dpure]
  | succ m ih =>
    intro σ k e h
    unfold sampleFoodRow at h
    rcases dbind_error.mp h with h1 | ⟨fd, ka, _, h2⟩
    · exact food_sample_ne_error h1
    · rcases dbind_error.mp h2 with h2a | ⟨rest, kb, _, h2b⟩
      · exact ih h2a
      · exact absurd h2b (by simp [dpure])

theorem reroll_ne_error {s : Shop} {σ : Dice} {k : Nat} {e : Panic} :
    s.reroll σ k ≠ .error e := by
  unfold Shop.reroll
  intro h
  rcases dbind_error.mp h with h1 | ⟨fs, ka, _, h2⟩
  · exact sampleFriendRow_ne_error h1
  · rcases dbind_error.mp h2 with h2a | ⟨gs, kb, _, h2b⟩
    · exact sampleFoodRow_ne_error h2a
    · exact absurd h2b (by simp [dpure])

theorem sample_ok_cases {σ : Dice} {k : Nat} {a : ShopAction} {k1 : Nat}
    (h : ShopAction.sample σ k = .ok (a, k1)) :
    k1 = k + 1 ∧
    ((σ k % 6 = 0 ∧ a = .BuyFriend) ∨ (σ k % 6 = 1 ∧ a = .BuyCombineFriend) ∨
     (σ k % 6 = 2 ∧ a = .SellFriend) ∨ (σ k % 6 = 3 ∧ a = .BuyFood) ∨
     (σ k % 6 = 4 ∧ a = .CombineFriends) ∨ (σ k % 6 = 5 ∧ a = .Reroll)) := by
  unfold ShopAction.sample at h
  rcases dbind_ok.mp h with ⟨v, ka, hr, h2⟩
  obtain ⟨-, hv, hka⟩ := roll_ok.mp hr
  subst hv
  subst hka
  have h6 : σ k % 6 < 6 := Nat.mod_lt _ (by omega)
  split at h2
  · obtain ⟨ha, hk1⟩ := dpure_ok.mp h2
    exact ⟨hk1.symm, Or.inl ⟨by omega, ha.symm⟩⟩
  · split at h2
    · obtain ⟨ha, hk1⟩ := dpure_ok.mp h2
      exact ⟨hk1.symm, Or.inr (Or.inl ⟨by omega, ha.symm⟩)⟩
    · split at h2
      · obtain ⟨ha, hk1⟩ := dpure_ok.mp h2
        exact ⟨hk1.symm, Or.inr (Or.inr (Or.inl ⟨by omega, ha.symm⟩))⟩
      · split at h2
        · obtain ⟨ha, hk1⟩ := dpure_ok.mp h2
          exact ⟨hk1.symm, Or.inr (Or.inr (Or.inr (Or.inl ⟨by omega, ha.symm⟩)))⟩
        · split at h2
          · obtain ⟨ha, hk1⟩ := dpure_ok.mp h2
            exact ⟨hk1.symm, Or.inr (Or.inr (Or.inr (Or.inr (Or.inl ⟨by omega, ha.symm⟩))))⟩
          · split at h2
            · obtain ⟨ha, hk1⟩ := dpure_ok.mp h2
              exact ⟨hk1.symm, Or.inr (Or.inr (Or.inr (Or.inr (Or.inr ⟨by omega, ha.symm⟩))))⟩
            · exact absurd h2 (by simp [dfail])

theorem action_sample_ne_error {σ : Dice} {k : Nat} {e : Panic} :
    ShopAction.sample σ k ≠ .error e := by
  unfold ShopAction.sample
  intro h
  rcases dbind_error.mp h with h1 | ⟨v, ka, hr, h2⟩
  · rcases roll_error.mp h1 with ⟨h0, -⟩
    omega
  · obtain ⟨-, hv, -⟩ := roll_ok.mp hr
    have h6 : v < 6 := by
      rw [← hv]
      exact Nat.mod_lt _ (by omega)
    split at h2
    · exact absurd h2 (by simp [dpure])
    · split at h2
      · exact absurd h2 (by simp [dpure])
      · split at h2
        · exact absurd h2 (by simp [dpure])
        · split at h2
          · exact absurd h2 (by simp [dpure])
          · split at h2
            · exact absurd h2 (by simp [dpure])
            · split at h2
              · exact absurd h2 (by simp [dpure])
              · omega

theorem sample_eval {σ : Dice} {k : Nat} (a : ShopAction)
    (hv : (σ k % 6 = 0 ∧ a = .BuyFriend) ∨ (σ k % 6 = 1 ∧ a = .BuyCombineFriend) ∨
      (σ k % 6 = 2 ∧ a = .SellFriend) ∨ (σ k % 6 = 3 ∧ a = .BuyFood) ∨
      (σ k % 6 = 4 ∧ a = .CombineFriends) ∨ (σ k % 6 = 5 ∧ a = .Reroll)) :
    ShopAction.sample σ k = .ok (a, k + 1) := by
  unfold ShopAction.sample
  rw [dbind_ok]
  refine ⟨σ k % 6, k + 1, by rw [roll_ok]; exact ⟨by omega, rfl, rfl⟩, ?_⟩
  rcases hv with ⟨h0, ha⟩ | ⟨h0, ha⟩ | ⟨h0, ha⟩ | ⟨h0, ha⟩ | ⟨h0, ha⟩ | ⟨h0, ha⟩ <;>
    subst ha <;> simp [h0, dpure]

/-! ## Facts about the six step branches

For every branch we prove in one pass: a `true` result leaves the state
unchanged; non-negative gold is preserved; sortedness of both offer arrays
is preserved. -/

theorem stepBuyFriend_facts {s : Shop} {σ : Dice} {k : Nat} {s' : Shop} {b : Bool} {k' : Nat}
    (h : stepBuyFriend s σ k = .ok ((s', b), k')) :
    (b = true → s' = s) ∧ (0 ≤ s.gold → 0 ≤ s'.gold) ∧
    (List.Sorted fle s.shop_friends → List.Sorted fle s'.shop_friends) ∧
    (List.Sorted gle s.shop_foods → List.Sorted gle s'.shop_foods) := by
  unfold stepBuyFriend at h
  split at h
  · obtain ⟨hp, -⟩ := dpure_ok.mp h
    injection hp with h1 h2
    exact ⟨fun _ => h1.symm, by rw [← h1]; exact fun hg => hg,
      by rw [← h1]; exact fun hs => hs, by rw [← h1]; exact fun hs => hs⟩
  · rename_i hg
    rcases dbind_ok.mp h with ⟨oi, k1, hpick, h2⟩
    cases oi with
    | none =>
      obtain ⟨hp, -⟩ := dpure_ok.mp h2
      injection hp with h1 h2
      exact ⟨fun _ => h1.symm, by rw [← h1]; exact fun hgd => hgd,
        by rw [← h1]; exact fun hs => hs, by rw [← h1]; exact fun hs => hs⟩
    | some i =>
      rcases dbind_ok.mp h2 with ⟨j, k2, hroll, h3⟩
      cases hms : make_space_at s.team j with
      | none =>
        rw [hms] at h3
        obtain ⟨hp, -⟩ := dpure_ok.mp h3
        injection hp with h1 h2
        exact ⟨fun _ => h1.symm, by rw [← h1]; exact fun hgd => hgd,
          by rw [← h1]; exact fun hs => hs, by rw [← h1]; exact fun hs => hs⟩
      | some team2 =>
        rw [hms] at h3
        rcases dbind_ok.mp h3 with ⟨s2, k3, hbuy, h4⟩
        obtain ⟨hp, -⟩ := dpure_ok.mp h4
        injection hp with he1 he2
        subst he1
        obtain ⟨hg3, -, f, smid, hf, hob, hs2⟩ := buy_friend_ok_inv hbuy
        obtain ⟨hgold, hfr, hfd, -, -, -⟩ := on_buy_ok_facts hob
        subst hs2
        dsimp only at hg3 hgold hfr hfd ⊢
        refine ⟨fun hcontra => absurd he2 (by rw [hcontra]; simp), ?_, ?_, ?_⟩
        · intro hgd
          omega
        · intro hs
          rw [hfr]
          exact sorted_sortFriends _
        · intro hs
          rw [hfd]
          exact hs


theorem stepBuyFood_facts {s : Shop} {σ : Dice} {k : Nat} {s' : Shop} {b : Bool} {k' : Nat}
    (h : stepBuyFood s σ k = .ok ((s', b), k')) :
    (b = true → s' = s) ∧ (0 ≤ s.gold → 0 ≤ s'.gold) ∧
    (List.Sorted fle s.shop_friends → List.Sorted fle s'.shop_friends) ∧
    (List.Sorted gle s.shop_foods → List.Sorted gle s'.shop_foods) := by
  unfold stepBuyFood at h
  split at h
  · obtain ⟨hp, -⟩ := dpure_ok.mp h
    injection hp with h1 h2
    exact ⟨fun _ => h1.symm, by rw [← h1]; exact fun hg => hg,
      by rw [← h1]; exact fun hs => hs, by rw [← h1]; exact fun hs => hs⟩
  · rename_i hg
    rcases dbind_ok.mp h with ⟨oi, k1, hpick, h2⟩
    cases oi with
    | none =>
      obtain ⟨hp, -⟩ := dpure_ok.mp h2
      injection hp with h1 h2
      exact ⟨fun _ => h1.symm, by rw [← h1]; exact fun hgd => hgd,
        by rw [← h1]; exact fun hs => hs, by rw [← h1]; exact fun hs => hs⟩
    | some i =>
      rcases dbind_ok.mp h2 with ⟨oj, k2, hpick2, h3⟩
      cases oj with
      | none =>
        obtain ⟨hp, -⟩ := dpure_ok.mp h3
        injection hp with h1 h2
        exact ⟨fun _ => h1.symm, by rw [← h1]; exact fun hgd => hgd,
          by rw [← h1]; exact fun hs => hs, by rw [← h1]; exact fun hs => hs⟩
      | some j =>
        rcases dbind_ok.mp h3 with ⟨s2, k3, hbf, h4⟩
        obtain ⟨hbuy, -⟩ := liftE_ok.mp hbf
        obtain ⟨hp, -⟩ := dpure_ok.mp h4
        injection hp with he1 he2
        subst he1
        obtain ⟨food, friend, hfood, hfriend, hs2⟩ := buy_food_ok_inv hbuy
        subst hs2
        dsimp only at hg ⊢
        refine ⟨fun hcontra => absurd he2 (by rw [hcontra]; simp), ?_, ?_, ?_⟩
        · intro hgd
          omega
        · intro hs
          exact hs
        · intro hs
          exact sorted_sortFoods _

theorem stepSellFriend_facts {s : Shop} {σ : Dice} {k : Nat} {s' : Shop} {b : Bool} {k' : Nat}
    (h : stepSellFriend s σ k = .ok ((s', b), k')) :
    (b = true → s' = s) ∧ (0 ≤ s.gold → 0 ≤ s'.gold) ∧
    (List.Sorted fle s.shop_friends → List.Sorted fle s'.shop_friends) ∧
    (List.Sorted gle s.shop_foods → List.Sorted gle s'.shop_foods) := by
  unfold stepSellFriend at h
  rcases dbind_ok.mp h with ⟨oj, k1, hpick, h2⟩
  cases oj with
  | none =>
    obtain ⟨hp, -⟩ := dpure_ok.mp h2
    injection hp with h1 h2
    exact ⟨fun _ => h1.symm, by rw [← h1]; exact fun hgd => hgd,
      by rw [← h1]; exact fun hs => hs, by rw [← h1]; exact fun hs => hs⟩
  | some j =>
    rcases dbind_ok.mp h2 with ⟨s2, k2, hsell, h3⟩
    obtain ⟨hp, -⟩ := dpure_ok.mp h3
    injection hp with he1 he2
    subst he1
    obtain ⟨a, ha, hos⟩ := sell_friend_ok_inv hsell
    obtain ⟨hge, hfd, -, hsorted⟩ := on_sell_ok_facts hos
    dsimp only at hge hfd hsorted
    refine ⟨fun hcontra => absurd he2 (by rw [hcontra]; simp), ?_, ?_, ?_⟩
    · intro hgd
      omega
    · intro hs
      exact hsorted hs
    · intro hs
      rw [hfd]
      exact hs

theorem stepReroll_facts {s : Shop} {σ : Dice} {k : Nat} {s' : Shop} {b : Bool} {k' : Nat}
    (h : stepReroll s σ k = .ok ((s', b), k')) :
    (b = true → s' = s) ∧ (0 ≤ s.gold → 0 ≤ s'.gold) ∧
    (List.Sorted fle s.shop_friends → List.Sorted fle s'.shop_friends) ∧
    (List.Sorted gle s.shop_foods → List.Sorted gle s'.shop_foods) := by
  unfold stepReroll at h
  split at h
  · obtain ⟨hp, -⟩ := dpure_ok.mp h
    injection hp with h1 h2
    exact ⟨fun _ => h1.symm, by rw [← h1]; exact fun hg => hg,
      by rw [← h1]; exact fun hs => hs, by rw [← h1]; exact fun hs => hs⟩
  · rename_i hg0
    split at h
    · rcases dbind_ok.mp h with ⟨s2, ka, hrr, h2⟩
      obtain ⟨hp, -⟩ := dpure_ok.mp h2
      injection hp with he1 he2
      subst he1
      obtain ⟨hgold, -, hsf, hsd, -, -⟩ := reroll_ok_facts hrr
      dsimp only
      refine ⟨fun hcontra => absurd he2 (by rw [hcontra]; simp), ?_, ?_, ?_⟩
      · intro hgd
        omega
      · intro hs
        exact hsf
      · intro hs
        exact hsd
    · obtain ⟨hp, -⟩ := dpure_ok.mp h
      injection hp with h1 h2
      exact ⟨fun _ => h1.symm, by rw [← h1]; exact fun hg => hg,
        by rw [← h1]; exact fun hs => hs, by rw [← h1]; exact fun hs => hs⟩

theorem stepCombineFriends_facts {s : Shop} {σ : Dice} {k : Nat} {s' : Shop} {b : Bool} {k' : Nat}
    (h : stepCombineFriends s σ k = .ok ((s', b), k')) :
    (b = true → s' = s) ∧ (0 ≤ s.gold → 0 ≤ s'.gold) ∧
    (List.Sorted fle s.shop_friends → List.Sorted fle s'.shop_friends) ∧
    (List.Sorted gle s.shop_foods → List.Sorted gle s'.shop_foods) := by
  unfold stepCombineFriends at h
  rcases dbind_ok.mp h with ⟨v, k1, hroll, h2⟩
  cases hc : (candIdxs s.team)[v]? with
  | none =>
    rw [hc] at h2
    obtain ⟨hp, -⟩ := dpure_ok.mp h2
    injection hp with h1 h2
    exact ⟨fun _ => h1.symm, by rw [← h1]; exact fun hg => hg,
      by rw [← h1]; exact fun hs => hs, by rw [← h1]; exact fun hs => hs⟩
  | some i =>
    rw [hc] at h2
    rcases dbind_ok.mp h2 with ⟨w, k2, hroll2, h3⟩
    rcases dbind_ok.mp h3 with ⟨j, k3, hj, h4⟩
    rcases dbind_ok.mp h4 with ⟨friend, k4, hfr, h5⟩
    rcases dbind_ok.mp h5 with ⟨s2, k5, hcomb, h6⟩
    obtain ⟨hcombE, -⟩ := liftE_ok.mp hcomb
    obtain ⟨hp, -⟩ := dpure_ok.mp h6
    injection hp with he1 he2
    subst he1
    obtain ⟨fcap, hslot, hsp, hs2⟩ := combine_friends_ok_inv hcombE
    subst hs2
    dsimp only
    refine ⟨fun hcontra => absurd he2 (by rw [hcontra]; simp), ?_, ?_, ?_⟩
    · intro hgd
      exact hgd
    · intro hs
      exact hs
    · intro hs
      exact hs

theorem stepBuyCombineFriend_facts {s : Shop} {σ : Dice} {k : Nat} {s' : Shop} {b : Bool}
    {k' : Nat} (h : stepBuyCombineFriend s σ k = .ok ((s', b), k')) :
    (b = true → s' = s) ∧ (0 ≤ s.gold → 0 ≤ s'.gold) ∧
    (List.Sorted fle s.shop_friends → List.Sorted fle s'.shop_friends) ∧
    (List.Sorted gle s.shop_foods → List.Sorted gle s'.shop_foods) := by
  unfold stepBuyCombineFriend at h
  split at h
  · obtain ⟨hp, -⟩ := dpure_ok.mp h
    injection hp with h1 h2
    exact ⟨fun _ => h1.symm, by rw [← h1]; exact fun hg => hg,
      by rw [← h1]; exact fun hs => hs, by rw [← h1]; exact fun hs => hs⟩
  · rename_i hg
    rcases dbind_ok.mp h with ⟨v, k1, hroll, h2⟩
    cases hc : (shopCandIdxs s)[v]? with
    | none =>
      rw [hc] at h2
      obtain ⟨hp, -⟩ := dpure_ok.mp h2
      injection hp with h1 h2
      exact ⟨fun _ => h1.symm, by rw [← h1]; exact fun hgd => hgd,
        by rw [← h1]; exact fun hs => hs, by rw [← h1]; exact fun hs => hs⟩
    | some i =>
      rw [hc] at h2
      rcases dbind_ok.mp h2 with ⟨w, k2, hroll2, h3⟩
      rcases dbind_ok.mp h3 with ⟨j, k3, hj, h4⟩
      rcases dbind_ok.mp h4 with ⟨friend, k4, hfr, h5⟩
      rcases dbind_ok.mp h5 with ⟨s2, k5, hcomb, h6⟩
      obtain ⟨hcombE, -⟩ := liftE_ok.mp hcomb
      rcases dbind_ok.mp h6 with ⟨merged, k6, hmg, h7⟩
      rcases dbind_ok.mp h7 with ⟨s3, k7, hob, h8⟩
      obtain ⟨hp, -⟩ := dpure_ok.mp h8
      injection hp with he1 he2
      subst he1
      obtain ⟨fcap, hslot, hsp, hs2⟩ := combine_friends_ok_inv hcombE
      subst hs2
      obtain ⟨hgold, hfrs, hfds, -, -, -⟩ := on_buy_ok_facts hob
      dsimp only at hgold hfrs hfds ⊢
      refine ⟨fun hcontra => absurd he2 (by rw [hcontra]; simp), ?_, ?_, ?_⟩
      · intro hgd
        omega
      · intro hs
        rw [hfrs]
        exact sorted_sortFriends _
      · intro hs
        rw [hfds]
        exact hs

/-- All per-branch facts, lifted to the action dispatch of `step`. -/
theorem dispatch_ok_facts {s : Shop} {a : ShopAction} {σ : Dice} {k : Nat} {s' : Shop}
    {b : Bool} {k' : Nat} (h : s.dispatch a σ k = .ok ((s', b), k')) :
    (b = true → s' = s) ∧ (0 ≤ s.gold → 0 ≤ s'.gold) ∧
    (List.Sorted fle s.shop_friends → List.Sorted fle s'.shop_friends) ∧
    (List.Sorted gle s.shop_foods → List.Sorted gle s'.shop_foods) := by
  cases a with
  | BuyFriend => exact stepBuyFriend_facts h
  | BuyCombineFriend => exact stepBuyCombineFriend_facts h
  | SellFriend => exact stepSellFriend_facts h
  | BuyFood => exact stepBuyFood_facts h
  | CombineFriends => exact stepCombineFriends_facts h
  | Reroll => exact stepReroll_facts h

/-- All per-branch facts, lifted to `step` itself. -/
theorem step_ok_facts {s : Shop} {σ : Dice} {k : Nat} {s' : Shop} {b : Bool} {k' : Nat}
    (h : s.step σ k = .ok ((s', b), k')) :
    (b = true → s' = s) ∧ (0 ≤ s.gold → 0 ≤ s'.gold) ∧
    (List.Sorted fle s.shop_friends → List.Sorted fle s'.shop_friends) ∧
    (List.Sorted gle s.shop_foods → List.Sorted gle s'.shop_foods) := by
  unfold Shop.step at h
  rcases dbind_ok.mp h with ⟨a, k1, hsample, h2⟩
  exact dispatch_ok_facts h2

theorem runTrace_gold :
    ∀ {fuel : Nat} {s : Shop} {σ : Dice} {k : Nat}
      {s' : Shop} {b : Bool} {tr : List ShopAction} {k' : Nat},
      0 ≤ s.gold → runTrace fuel s σ k = .ok ((s', b, tr), k') → 0 ≤ s'.gold := by
  intro fuel
  induction fuel with
  | zero =>
    intro s σ k s' b tr k' hg h
    unfold runTrace at h
    obtain ⟨hp, -⟩ := dpure_ok.mp h
    injection hp with h1 h2
    rw [← h1]
    exact hg
  | succ m ih =>
    intro s σ k s' b tr k' hg h
    unfold runTrace at h
    rcases dbind_ok.mp h with ⟨a, k1, hsample, h2⟩
    rcases dbind_ok.mp h2 with ⟨r, k2, hdisp, h3⟩
    cases r with
    | mk s2 b2 =>
      have hfacts := dispatch_ok_facts hdisp
      cases b2 with
      | true =>
        obtain ⟨hp, -⟩ := dpure_ok.mp h3
        injection hp with h1 h2
        rw [← h1]
        exact hfacts.2.1 hg
      | false =>
        rcases dbind_ok.mp h3 with ⟨t, k4, hrun, h4⟩
        obtain ⟨hp, -⟩ := dpure_ok.mp h4
        cases t with
        | mk ts trest =>
          injection hp with h1 h2
          rw [← h1]
          dsimp only
          cases trest with
          | mk tb ttr =>
            exact ih (hfacts.2.1 hg) hrun

/-- C1: for every Shop state with non-negative gold, one `step` call and any
driver run of `step` calls leave gold non-negative: every gold-spending path
(BuyFriend, BuyFood and BuyCombineFriend deduct 3, Reroll deducts 1) is
guarded by a sufficient-gold check before the subtraction, including
`buy_food`, whose deduction is covered only by the gold check in `step`. -/
theorem gold_never_negative :
    (∀ (s : Shop) (σ : Dice) (k : Nat) (s' : Shop) (b : Bool) (k' : Nat),
      0 ≤ s.gold → s.step σ k = .ok ((s', b), k') → 0 ≤ s'.gold) ∧
    (∀ (fuel : Nat) (s : Shop) (σ : Dice) (k : Nat)
      (s' : Shop) (b : Bool) (tr : List ShopAction) (k' : Nat),
      0 ≤ s.gold → runTrace fuel s σ k = .ok ((s', b, tr), k') → 0 ≤ s'.gold) :=
  ⟨fun _ _ _ _ _ _ hg h => (step_ok_facts h).2.1 hg,
   fun _ _ _ _ _ _ _ _ hg h => runTrace_gold hg h⟩

theorem gold_never_negative_witness :
    (0 : Int) ≤ shopEmptyGold0.gold ∧ (0 : Int) ≤ shopEmptyGold0.gold :=
  ⟨gold_never_negative.1 shopEmptyGold0 (fun _ => 5) 0 shopEmptyGold0 true 1
      (by decide) (by decide),
   gold_never_negative.2 1 shopEmptyGold0 (fun _ => 5) 0 shopEmptyGold0 true
      [.Reroll] 1 (by decide) (by decide)⟩

/-- C2: whenever `step` returns the termination signal `true`, the Shop state
(team, gold, shop_friends, shop_foods) is exactly the state before the call:
every infeasible-action branch detects its preconditions before mutating. -/
theorem step_true_no_mutation (s : Shop) (σ : Dice) (k : Nat) (s' : Shop) (k' : Nat)
    (h : s.step σ k = .ok ((s', true), k')) : s' = s :=
  (step_ok_facts h).1 rfl

theorem step_true_no_mutation_witness : shopEmptyGold0 = shopEmptyGold0 :=
  step_true_no_mutation shopEmptyGold0 (fun _ => 5) 0 shopEmptyGold0 1 (by decide)

/-- C3: the Reroll branch comment (shop.rs lines 280-284) says a full shop
holding an animal with non-default power should still be rerolled, but the
code only tests `Option::is_none`: on a shop with positive gold, every offer
slot full and an offered Friend with boosted (non-baseline) health, Reroll
returns true and changes nothing. -/
theorem reroll_full_boosted_noop :
    shopFullBoosted.gold ≠ 0 ∧
    shopFullBoosted.shop_friends.all Option.isSome = true ∧
    shopFullBoosted.shop_foods.all Option.isSome = true ∧
    (∃ f ∈ shopFullBoosted.shop_friends, ∃ g, f = some g ∧
      g.health ≠ g.species.baseHealth) ∧
    shopFullBoosted.step (fun _ => 5) 0 = .ok ((shopFullBoosted, true), 1) := by
  refine ⟨by decide, by decide, by decide, ?_, by decide⟩
  refine ⟨some { Friend.new Species.Otter with health := 9 }, by decide,
    { Friend.new Species.Otter with health := 9 }, rfl, by decide⟩

/-! ## Empty-range roll analysis (C4) -/

theorem mem_of_getElemQ {α : Type} {l : List α} {v : Nat} {a : α}
    (h : l[v]? = some a) : a ∈ l := by
  rw [List.getElem?_eq_some] at h
  obtain ⟨hlt, he⟩ := h
  exact he ▸ List.getElem_mem hlt

theorem candIdxs_partners_nonempty {team : List (Option Friend)} {i : Nat}
    (h : i ∈ candIdxs team) : (partnersOf team i).length ≠ 0 := by
  unfold candIdxs at h
  rw [List.mem_filter] at h
  obtain ⟨-, ht⟩ := h
  unfold hasTarget at ht
  rw [List.any_eq_true] at ht
  obtain ⟨j, hj, hcomb⟩ := ht
  intro h0
  rw [List.length_eq_zero] at h0
  have : j ∈ partnersOf team i := by
    unfold partnersOf
    rw [List.mem_filter]
    exact ⟨hj, hcomb⟩
  rw [h0] at this
  exact absurd this (List.not_mem_nil j)

theorem shopCandIdxs_partners_nonempty {s : Shop} {i : Nat}
    (h : i ∈ shopCandIdxs s) : (shopPartnersOf s i).length ≠ 0 := by
  unfold shopCandIdxs at h
  rw [List.mem_filter] at h
  obtain ⟨-, ht⟩ := h
  unfold shopHasTarget at ht
  rw [List.any_eq_true] at ht
  obtain ⟨j, hj, hcomb⟩ := ht
  intro h0
  rw [List.length_eq_zero] at h0
  have : j ∈ shopPartnersOf s i := by
    unfold shopPartnersOf
    rw [List.mem_filter]
    exact ⟨hj, hcomb⟩
  rw [h0] at this
  exact absurd this (List.not_mem_nil j)

theorem stepBuyFriend_no_emptyRoll {s : Shop} {σ : Dice} {k : Nat}
    (h : stepBuyFriend s σ k = .error .emptyRoll) : False := by
  unfold stepBuyFriend at h
  split at h
  · exact absurd h (by simp [dpure])
  · rcases dbind_error.mp h with h1 | ⟨oi, k1, hpick, h2⟩
    · exact pick_one_ne_error h1
    · cases oi with
      | none => exact absurd h2 (by simp [dpure])
      | some i =>
        rcases dbind_error.mp h2 with h2a | ⟨j, k2, hroll, h3⟩
        · rcases roll_error.mp h2a with ⟨h0, -⟩
          simp [TEAM_SIZE] at h0
        · cases hms : make_space_at s.team j with
          | none =>
            rw [hms] at h3
            exact absurd h3 (by simp [dpure])
          | some team2 =>
            rw [hms] at h3
            rcases dbind_error.mp h3 with h3a | ⟨s2, k3, hbuy, h4⟩
            · exact absurd (buy_friend_error h3a) (by simp)
            · exact absurd h4 (by simp [dpure])

theorem stepBuyFood_no_emptyRoll {s : Shop} {σ : Dice} {k : Nat}
    (h : stepBuyFood s σ k = .error .emptyRoll) : False := by
  unfold stepBuyFood at h
  split at h
  · exact absurd h (by simp [dpure])
  · rcases dbind_error.mp h with h1 | ⟨oi, k1, hpick, h2⟩
    · exact pick_one_ne_error h1
    · cases oi with
      | none => exact absurd h2 (by simp [dpure])
      | some i =>
        rcases dbind_error.mp h2 with h2a | ⟨oj, k2, hpick2, h3⟩
        · exact pick_one_ne_error h2a
        · cases oj with
          | none => exact absurd h3 (by simp [dpure])
          | some j =>
            rcases dbind_error.mp h3 with h3a | ⟨s2, k3, hbf, h4⟩
            · exact absurd (buy_food_error (liftE_error.mp h3a)) (by simp)
            · exact absurd h4 (by simp [dpure])

theorem stepSellFriend_no_emptyRoll {s : Shop} {σ : Dice} {k : Nat}
    (h : stepSellFriend s σ k = .error .emptyRoll) : False := by
  unfold stepSellFriend at h
  rcases dbind_error.mp h with h1 | ⟨oj, k1, hpick, h2⟩
  · exact pick_one_ne_error h1
  · cases oj with
    | none => exact absurd h2 (by simp [dpure])
    | some j =>
      rcases dbind_error.mp h2 with h2a | ⟨s2, k2, hsell, h3⟩
      · exact absurd (sell_friend_error h2a) (by simp)
      · exact absurd h3 (by simp [dpure])

theorem stepReroll_no_emptyRoll {s : Shop} {σ : Dice} {k : Nat}
    (h : stepReroll s σ k = .error .emptyRoll) : False := by
  unfold stepReroll at h
  split at h
  · exact absurd h (by simp [dpure])
  · split at h
    · rcases dbind_error.mp h with h1 | ⟨s2, k1, hrr, h2⟩
      · exact reroll_ne_error h1
      · exact absurd h2 (by simp [dpure])
    · exact absurd h (by simp [dpure])

theorem stepCombineFriends_emptyRoll {s : Shop} {σ : Dice} {k : Nat}
    (h : stepCombineFriends s σ k = .error .emptyRoll) : candIdxs s.team = [] := by
  unfold stepCombineFriends at h
  rcases dbind_error.mp h with h1 | ⟨v, k1, hroll, h2⟩
  · rcases roll_error.mp h1 with ⟨h0, -⟩
    rw [List.length_eq_zero] at h0
    exact h0
  · cases hc : (candIdxs s.team)[v]? with
    | none =>
      rw [hc] at h2
      exact absurd h2 (by simp [dpure])
    | some i =>
      rw [hc] at h2
      exfalso
      have hmem : i ∈ candIdxs s.team := mem_of_getElemQ hc
      rcases dbind_error.mp h2 with h2a | ⟨w, k2, hroll2, h3⟩
      · rcases roll_error.mp h2a with ⟨h0, -⟩
        exact candIdxs_partners_nonempty hmem h0
      · rcases dbind_error.mp h3 with h3a | ⟨j, k3, hj, h4⟩
        · exact absurd (unwrapD_error.mp h3a).2 (by simp)
        · rcases dbind_error.mp h4 with h4a | ⟨friend, k4, hfr, h5⟩
          · exact absurd (unwrapD_error.mp h4a).2 (by simp)
          · rcases dbind_error.mp h5 with h5a | ⟨s2, k5, hcomb, h6⟩
            · exact absurd (combine_friends_error (liftE_error.mp h5a)) (by simp)
            · exact absurd h6 (by simp [dpure])

theorem stepBuyCombineFriend_emptyRoll {s : Shop} {σ : Dice} {k : Nat}
    (h : stepBuyCombineFriend s σ k = .error .emptyRoll) :
    ¬ s.gold < 3 ∧ shopCandIdxs s = [] := by
  unfold stepBuyCombineFriend at h
  split at h
  · exact absurd h (by simp [dpure])
  · rename_i hg
    refine ⟨hg, ?_⟩
    rcases dbind_error.mp h with h1 | ⟨v, k1, hroll, h2⟩
    · rcases roll_error.mp h1 with ⟨h0, -⟩
      rw [List.length_eq_zero] at h0
      exact h0
    · cases hc : (shopCandIdxs s)[v]? with
      | none =>
        rw [hc] at h2
        exact absurd h2 (by simp [dpure])
      | some i =>
        rw [hc] at h2
        exfalso
        have hmem : i ∈ shopCandIdxs s := mem_of_getElemQ hc
        rcases dbind_error.mp h2 with h2a | ⟨w, k2, hroll2, h3⟩
        · rcases roll_error.mp h2a with ⟨h0, -⟩
          exact shopCandIdxs_partners_nonempty hmem h0
        · rcases dbind_error.mp h3 with h3a | ⟨j, k3, hj, h4⟩
          · exact absurd (unwrapD_error.mp h3a).2 (by simp)
          · rcases dbind_error.mp h4 with h4a | ⟨friend, k4, hfr, h5⟩
            · exact absurd (unwrapD_error.mp h4a).2 (by simp)
            · rcases dbind_error.mp h5 with h5a | ⟨s2, k5, hcomb, h6⟩
              · exact absurd (combine_friends_error (liftE_error.mp h5a)) (by simp)
              · rcases dbind_error.mp h6 with h6a | ⟨merged, k6, hmg, h7⟩
                · exact absurd (unwrapD_error.mp h6a).2 (by simp)
                · rcases dbind_error.mp h7 with h7a | ⟨s3, k7, hob, h8⟩
                  · exact absurd (on_buy_error h7a) (by simp)
                  · exact absurd h8 (by simp [dpure])

/-- C4 counterexample: the claim says `roll` is never invoked on an empty
range, but with an empty team and enough gold, selecting CombineFriends
issues the candidate-count roll before checking that the count is positive,
and the dice capability (spec-modelled: it must fail loudly on an empty
range) aborts the step. -/
theorem combine_invokes_empty_roll :
    ({ shopEmptyGold0 with gold := 5 } : Shop).step (fun _ => 4) 0 =
      .error .emptyRoll := by decide

/-- C4 amended: every `roll` call site in `step` ensures a positive range
except the two first-stage candidate-count rolls: `step` aborts with the
empty-range failure exactly when the sampled action is CombineFriends and no
same-species team pair exists, or BuyCombineFriend with gold ≥ 3 and no
shop-offer/team species match. -/
theorem step_emptyRoll_iff (s : Shop) (σ : Dice) (k : Nat) :
    s.step σ k = .error .emptyRoll ↔
      (σ k % 6 = 4 ∧ candIdxs s.team = []) ∨
      (σ k % 6 = 1 ∧ ¬ s.gold < 3 ∧ shopCandIdxs s = []) := by
  constructor
  · intro h
    unfold Shop.step at h
    rcases dbind_error.mp h with h1 | ⟨a, k1, hsample, h2⟩
    · exact absurd h1 action_sample_ne_error
    · obtain ⟨hk1, hcases⟩ := sample_ok_cases hsample
      subst hk1
      rcases hcases with ⟨hv, ha⟩ | ⟨hv, ha⟩ | ⟨hv, ha⟩ | ⟨hv, ha⟩ | ⟨hv, ha⟩ | ⟨hv, ha⟩ <;>
        subst ha
      · exact absurd h2 (fun hc => stepBuyFriend_no_emptyRoll hc)
      · obtain ⟨hg, hcand⟩ := stepBuyCombineFriend_emptyRoll h2
        exact Or.inr ⟨hv, hg, hcand⟩
      · exact absurd h2 (fun hc => stepSellFriend_no_emptyRoll hc)
      · exact absurd h2 (fun hc => stepBuyFood_no_emptyRoll hc)
      · exact Or.inl ⟨hv, stepCombineFriends_emptyRoll h2⟩
      · exact absurd h2 (fun hc => stepReroll_no_emptyRoll hc)
  · intro h
    unfold Shop.step
    rw [dbind_error]
    rcases h with ⟨hv, hcand⟩ | ⟨hv, hg, hcand⟩
    · refine Or.inr ⟨.CombineFriends, k + 1,
        sample_eval _ (Or.inr (Or.inr (Or.inr (Or.inr (Or.inl ⟨hv, rfl⟩))))), ?_⟩
      show stepCombineFriends s σ (k + 1) = .error .emptyRoll
      unfold stepCombineFriends
      rw [dbind_error]
      refine Or.inl ?_
      rw [roll_error]
      rw [hcand]
      exact ⟨rfl, rfl⟩
    · refine Or.inr ⟨.BuyCombineFriend, k + 1,
        sample_eval _ (Or.inr (Or.inl ⟨hv, rfl⟩)), ?_⟩
      show stepBuyCombineFriend s σ (k + 1) = .error .emptyRoll
      unfold stepBuyCombineFriend
      rw [if_neg hg]
      rw [dbind_error]
      refine Or.inl ?_
      rw [roll_error]
      rw [hcand]
      exact ⟨rfl, rfl⟩

/-! ## Inversion of successful combine branches (C5, C7, C8, C10) -/

theorem combinable_facts {team : List (Option Friend)} {i j : Nat}
    (h : combinable team i j = true) :
    i ≠ j ∧ ∃ a b, getSlot team i = some a ∧ getSlot team j = some b ∧
      a.species = b.species := by
  unfold combinable at h
  rw [Bool.and_eq_true] at h
  obtain ⟨h1, h2⟩ := h
  refine ⟨of_decide_eq_true h1, ?_⟩
  split at h2
  · rename_i a b ha hb
    exact ⟨a, b, ha, hb, of_decide_eq_true h2⟩
  · exact absurd h2 (by simp)

theorem shopCombinable_facts {s : Shop} {i j : Nat}
    (h : shopCombinable s i j = true) :
    ∃ a b, getSlot s.shop_friends i = some a ∧ getSlot s.team j = some b ∧
      a.species = b.species := by
  unfold shopCombinable at h
  split at h
  · rename_i a b ha hb
    exact ⟨a, b, ha, hb, of_decide_eq_true h⟩
  · exact absurd h (by simp)

theorem step_ok_dispatch_0 {s : Shop} {σ : Dice} {k : Nat} {s' : Shop} {b : Bool} {k' : Nat}
    (h0 : σ k % 6 = 0) (h : s.step σ k = .ok ((s', b), k')) :
    stepBuyFriend s σ (k + 1) = .ok ((s', b), k') := by
  unfold Shop.step at h
  rcases dbind_ok.mp h with ⟨a, k1, hsample, h2⟩
  obtain ⟨hk1, hcases⟩ := sample_ok_cases hsample
  subst hk1
  rcases hcases with ⟨hv, ha⟩ | ⟨hv, ha⟩ | ⟨hv, ha⟩ | ⟨hv, ha⟩ | ⟨hv, ha⟩ | ⟨hv, ha⟩ <;>
    subst ha <;> rw [h0] at hv
  · exact h2
  · exact absurd hv (by decide)
  · exact absurd hv (by decide)
  · exact absurd hv (by decide)
  · exact absurd hv (by decide)
  · exact absurd hv (by decide)

theorem step_ok_dispatch_1 {s : Shop} {σ : Dice} {k : Nat} {s' : Shop} {b : Bool} {k' : Nat}
    (h1 : σ k % 6 = 1) (h : s.step σ k = .ok ((s', b), k')) :
    stepBuyCombineFriend s σ (k + 1) = .ok ((s', b), k') := by
  unfold Shop.step at h
  rcases dbind_ok.mp h with ⟨a, k1, hsample, h2⟩
  obtain ⟨hk1, hcases⟩ := sample_ok_cases hsample
  subst hk1
  rcases hcases with ⟨hv, ha⟩ | ⟨hv, ha⟩ | ⟨hv, ha⟩ | ⟨hv, ha⟩ | ⟨hv, ha⟩ | ⟨hv, ha⟩ <;>
    subst ha <;> rw [h1] at hv
  · exact absurd hv (by decide)
  · exact h2
  · exact absurd hv (by decide)
  · exact absurd hv (by decide)
  · exact absurd hv (by decide)
  · exact absurd hv (by decide)

theorem step_ok_dispatch_4 {s : Shop} {σ : Dice} {k : Nat} {s' : Shop} {b : Bool} {k' : Nat}
    (h4 : σ k % 6 = 4) (h : s.step σ k = .ok ((s', b), k')) :
    stepCombineFriends s σ (k + 1) = .ok ((s', b), k') := by
  unfold Shop.step at h
  rcases dbind_ok.mp h with ⟨a, k1, hsample, h2⟩
  obtain ⟨hk1, hcases⟩ := sample_ok_cases hsample
  subst hk1
  rcases hcases with ⟨hv, ha⟩ | ⟨hv, ha⟩ | ⟨hv, ha⟩ | ⟨hv, ha⟩ | ⟨hv, ha⟩ | ⟨hv, ha⟩ <;>
    subst ha <;> rw [h4] at hv
  · exact absurd hv (by decide)
  · exact absurd hv (by decide)
  · exact absurd hv (by decide)
  · exact absurd hv (by decide)
  · exact h2
  · exact absurd hv (by decide)

theorem stepCombineFriends_ok_inv {s : Shop} {σ : Dice} {k : Nat} {s' : Shop} {k' : Nat}
    (h : stepCombineFriends s σ k = .ok ((s', false), k')) :
    ∃ i j a b, i ≠ j ∧ getSlot s.team i = some a ∧ getSlot s.team j = some b ∧
      a.species = b.species ∧
      s' = { s with team := setSlot (setSlot s.team i none) j (some (combineRule b a)) } := by
  unfold stepCombineFriends at h
  rcases dbind_ok.mp h with ⟨v, k1, hroll, h2⟩
  cases hc : (candIdxs s.team)[v]? with
  | none =>
    rw [hc] at h2
    obtain ⟨hp, -⟩ := dpure_ok.mp h2
    injection hp with h1 h2
    exact absurd h2 (by simp)
  | some i =>
    rw [hc] at h2
    rcases dbind_ok.mp h2 with ⟨w, k2, hroll2, h3⟩
    rcases dbind_ok.mp h3 with ⟨j, k3, hj, h4⟩
    obtain ⟨hjmem, -⟩ := unwrapD_ok.mp hj
    rcases dbind_ok.mp h4 with ⟨friend, k4, hfr, h5⟩
    obtain ⟨hfriend, -⟩ := unwrapD_ok.mp hfr
    rcases dbind_ok.mp h5 with ⟨s2, k5, hcomb, h6⟩
    obtain ⟨hcombE, -⟩ := liftE_ok.mp hcomb
    obtain ⟨hp, -⟩ := dpure_ok.mp h6
    injection hp with he1 he2
    have hjp : j ∈ partnersOf s.team i := mem_of_getElemQ hjmem
    have hcombinable : combinable s.team i j = true := by
      unfold partnersOf at hjp
      rw [List.mem_filter] at hjp
      exact hjp.2
    obtain ⟨hne, a, b, ha, hb, hsp⟩ := combinable_facts hcombinable
    have hfa : friend = a := by
      rw [ha] at hfriend
      injection hfriend with hx
      exact hx.symm
    subst hfa
    obtain ⟨f2, hf2, hsp2, hs2⟩ := combine_friends_ok_inv hcombE
    dsimp only at hf2 hs2
    rw [getSlot_setSlot_ne _ hne] at hf2
    have hfb : f2 = b := by
      rw [hb] at hf2
      injection hf2 with hx
      exact hx.symm
    subst hfb
    refine ⟨i, j, friend, f2, hne, ha, hb, hsp, ?_⟩
    rw [← he1, hs2]

theorem stepBuyCombineFriend_ok_inv {s : Shop} {σ : Dice} {k : Nat} {s' : Shop} {k' : Nat}
    (h : stepBuyCombineFriend s σ k = .ok ((s', false), k')) :
    ¬ s.gold < 3 ∧
    ∃ i j a b s3 k2, getSlot s.shop_friends i = some a ∧ getSlot s.team j = some b ∧
      a.species = b.species ∧
      Shop.on_buy
        { s with shop_friends := sortFriends (setSlot s.shop_friends i none)
                 gold := s.gold - 3
                 team := setSlot (setSlot s.team j (some (combineRule b a))) j none }
        (combineRule b a) σ k2 = .ok (s3, k') ∧
      s' = { s3 with team := setSlot s3.team j (some (combineRule b a)) } := by
  unfold stepBuyCombineFriend at h
  split at h
  · obtain ⟨hp, -⟩ := dpure_ok.mp h
    injection hp with h1 h2
    exact absurd h2 (by simp)
  · rename_i hg
    refine ⟨hg, ?_⟩
    rcases dbind_ok.mp h with ⟨v, k1, hroll, h2⟩
    cases hc : (shopCandIdxs s)[v]? with
    | none =>
      rw [hc] at h2
      obtain ⟨hp, -⟩ := dpure_ok.mp h2
      injection hp with h1 h2
      exact absurd h2 (by simp)
    | some i =>
      rw [hc] at h2
      rcases dbind_ok.mp h2 with ⟨w, k2, hroll2, h3⟩
      rcases dbind_ok.mp h3 with ⟨j, k3, hj, h4⟩
      obtain ⟨hjmem, -⟩ := unwrapD_ok.mp hj
      rcases dbind_ok.mp h4 with ⟨friend, k4, hfr, h5⟩
      obtain ⟨hfriend, -⟩ := unwrapD_ok.mp hfr
      rcases dbind_ok.mp h5 with ⟨s2, k5, hcomb, h6⟩
      obtain ⟨hcombE, -⟩ := liftE_ok.mp hcomb
      rcases dbind_ok.mp h6 with ⟨merged, k6, hmg, h7⟩
      obtain ⟨hmerged, -⟩ := unwrapD_ok.mp hmg
      rcases dbind_ok.mp h7 with ⟨s3, k7, hob, h8⟩
      obtain ⟨hp, hk8⟩ := dpure_ok.mp h8
      injection hp with he1 he2
      have hjp : j ∈ shopPartnersOf s i := mem_of_getElemQ hjmem
      have hcombinable : shopCombinable s i j = true := by
        unfold shopPartnersOf at hjp
        rw [List.mem_filter] at hjp
        exact hjp.2
      obtain ⟨a, b, ha, hb, hsp⟩ := shopCombinable_facts hcombinable
      have hfa : friend = a := by
        rw [ha] at hfriend
        injection hfriend with hx
        exact hx.symm
      subst hfa
      obtain ⟨f2, hf2, hsp2, hs2⟩ := combine_friends_ok_inv hcombE
      dsimp only at hf2 hs2
      have hfb : f2 = b := by
        rw [hb] at hf2
        injection hf2 with hx
        exact hx.symm
      subst hfb
      have hjlt : j < s.team.length := getSlot_some_lt hb
      have hmv : merged = combineRule f2 friend := by
        rw [hs2] at hmerged
        dsimp only at hmerged
        rw [getSlot_setSlot_self _ hjlt] at hmerged
        injection hmerged with hx
        exact hx.symm
      subst hmv
      rw [hs2] at hob
      dsimp only at hob
      rw [hk8] at hob
      exact ⟨i, j, friend, f2, s3, k6, ha, hb, hsp, hob, he1.symm⟩

theorem findEmptyFrom_lt {team : List (Option Friend)} {j e : Nat}
    (h : findEmptyFrom team j = some e) : e < team.length := by
  unfold findEmptyFrom at h
  cases hl : (List.range team.length).filter
      (fun i => decide (j ≤ i) && (getSlot team i).isNone) with
  | nil => rw [hl] at h; exact absurd h (by simp)
  | cons x xs =>
    rw [hl] at h
    injection h with h
    subst h
    have hx : x ∈ (List.range team.length).filter
        (fun i => decide (j ≤ i) && (getSlot team i).isNone) := by
      rw [hl]
      exact List.mem_cons_self x xs
    rw [List.mem_filter, List.mem_range] at hx
    exact hx.1

theorem make_space_at_length {team : List (Option Friend)} {j : Nat}
    {team2 : List (Option Friend)} (h : make_space_at team j = some team2)
    (hj : j < team.length) : team2.length = team.length := by
  unfold make_space_at at h
  split at h
  · injection h with h
    rw [← h]
  · cases hf : findEmptyFrom team j with
    | none =>
      rw [hf] at h
      exact absurd h (by simp)
    | some e =>
      rw [hf] at h
      injection h with h
      rw [← h]
      have he : e < team.length := findEmptyFrom_lt hf
      have herase : (team.eraseIdx e).length + 1 = team.length :=
        List.length_eraseIdx_add_one he
      rw [List.length_insertIdx _ _ (by omega)]
      omega

theorem stepBuyFriend_ok_inv {s : Shop} {σ : Dice} {k : Nat} {s' : Shop} {k' : Nat}
    (h : stepBuyFriend s σ k = .ok ((s', false), k')) :
    ¬ s.gold < 3 ∧
    ∃ i j f team2 smid k2, j < TEAM_SIZE ∧ getSlot s.shop_friends i = some f ∧
      make_space_at s.team j = some team2 ∧ getSlot team2 j = none ∧
      Shop.on_buy
        { s with team := team2
                 gold := s.gold - 3
                 shop_friends := sortFriends (setSlot s.shop_friends i none) }
        f σ k2 = .ok (smid, k') ∧
      s' = { smid with team := setSlot smid.team j (some f) } := by
  unfold stepBuyFriend at h
  split at h
  · obtain ⟨hp, -⟩ := dpure_ok.mp h
    injection hp with h1 h2
    exact absurd h2 (by simp)
  · rename_i hg
    refine ⟨hg, ?_⟩
    rcases dbind_ok.mp h with ⟨oi, k1, hpick, h2⟩
    cases oi with
    | none =>
      obtain ⟨hp, -⟩ := dpure_ok.mp h2
      injection hp with h1 h2
      exact absurd h2 (by simp)
    | some i =>
      rcases dbind_ok.mp h2 with ⟨j, k2, hroll, h3⟩
      obtain ⟨-, hjv, -⟩ := roll_ok.mp hroll
      have hjlt : j < TEAM_SIZE := by
        rw [← hjv]
        exact Nat.mod_lt _ (by decide)
      cases hms : make_space_at s.team j with
      | none =>
        rw [hms] at h3
        obtain ⟨hp, -⟩ := dpure_ok.mp h3
        injection hp with h1 h2
        exact absurd h2 (by simp)
      | some team2 =>
        rw [hms] at h3
        rcases dbind_ok.mp h3 with ⟨s2, k3, hbuy, h4⟩
        obtain ⟨hp, hk4⟩ := dpure_ok.mp h4
        injection hp with he1 he2
        obtain ⟨-, hslot, f, smid, hf, hob, hs2⟩ := buy_friend_ok_inv hbuy
        dsimp only at hslot hf hob hs2
        rw [hk4] at hob
        subst hs2
        exact ⟨i, j, f, team2, smid, k2, hjlt, hf, hms, hslot, hob, he1.symm⟩

/-- C5: after every successful CombineFriends (action 4) or BuyCombineFriend
(action 1), the surviving Friend has health max(a.health, b.health) + 1,
attack max(a.attack, b.attack) + 1 and experience incremented by 1, and
exactly one fewer Friend occupies the array the merged-away Friend came from
(the team for CombineFriends, the shop offers for BuyCombineFriend). -/
theorem combine_merge_correct (s : Shop) (σ : Dice) (k : Nat) (s' : Shop) (k' : Nat)
    (h : s.step σ k = .ok ((s', false), k')) :
    (σ k % 6 = 4 →
      ∃ i j a b, i ≠ j ∧ getSlot s.team i = some a ∧ getSlot s.team j = some b ∧
        a.species = b.species ∧ getSlot s'.team i = none ∧
        (∃ c, getSlot s'.team j = some c ∧ c.health = max a.health b.health + 1 ∧
          c.attack = max a.attack b.attack + 1 ∧ c.exp = b.exp + 1) ∧
        countOcc s'.team + 1 = countOcc s.team) ∧
    (σ k % 6 = 1 →
      ∃ i j a b, getSlot s.shop_friends i = some a ∧ getSlot s.team j = some b ∧
        a.species = b.species ∧
        (∃ c, getSlot s'.team j = some c ∧ c.health = max a.health b.health + 1 ∧
          c.attack = max a.attack b.attack + 1 ∧ c.exp = b.exp + 1) ∧
        countOcc s'.shop_friends + 1 = countOcc s.shop_friends ∧
        countOcc s'.team = countOcc s.team) := by
  constructor
  · intro h4
    obtain ⟨i, j, a, b, hne, ha, hb, hsp, hs'⟩ :=
      stepCombineFriends_ok_inv (step_ok_dispatch_4 h4 h)
    subst hs'
    have hilt : i < s.team.length := getSlot_some_lt ha
    have hjlt : j < s.team.length := getSlot_some_lt hb
    have hmid : getSlot (setSlot s.team i none) j = some b := by
      rw [getSlot_setSlot_ne _ hne]
      exact hb
    refine ⟨i, j, a, b, hne, ha, hb, hsp, ?_, ⟨combineRule b a, ?_, ?_, ?_, rfl⟩, ?_⟩
    · dsimp only
      rw [getSlot_setSlot_ne _ (Ne.symm hne)]
      exact getSlot_setSlot_self _ hilt
    · dsimp only
      exact getSlot_setSlot_self _ (by rw [length_setSlot]; exact hjlt)
    · unfold combineRule
      dsimp only
      omega
    · unfold combineRule
      dsimp only
      omega
    · dsimp only
      rw [countOcc_set_some_of_some _ hmid]
      exact countOcc_set_none_of_some ha
  · intro h1
    obtain ⟨-, i, j, a, b, s3, k2, ha, hb, hsp, hob, hs'⟩ :=
      stepBuyCombineFriend_ok_inv (step_ok_dispatch_1 h1 h)
    subst hs'
    obtain ⟨-, hfr3, -, hlen3, hcount3, hnone3⟩ := on_buy_ok_facts hob
    dsimp only at hfr3 hlen3 hcount3 hnone3
    have hjlt : j < s.team.length := getSlot_some_lt hb
    have hmid : getSlot (setSlot s.team j (some (combineRule b a))) j
        = some (combineRule b a) := getSlot_setSlot_self _ hjlt
    have hdet : getSlot (setSlot (setSlot s.team j (some (combineRule b a))) j none) j
        = none := getSlot_setSlot_self _ (by rw [length_setSlot]; exact hjlt)
    have hlen : s3.team.length = s.team.length := by
      rw [hlen3, length_setSlot, length_setSlot]
    refine ⟨i, j, a, b, ha, hb, hsp, ⟨combineRule b a, ?_, ?_, ?_, rfl⟩, ?_, ?_⟩
    · dsimp only
      exact getSlot_setSlot_self _ (by rw [hlen]; exact hjlt)
    · unfold combineRule
      dsimp only
      omega
    · unfold combineRule
      dsimp only
      omega
    · dsimp only
      rw [hfr3, countOcc_sortFriends]
      exact countOcc_set_none_of_some ha
    · dsimp only
      rw [countOcc_set_some_of_none _ (hnone3 j hdet) (by rw [hlen]; exact hjlt)]
      rw [hcount3]
      have hc1 : countOcc (setSlot (setSlot s.team j (some (combineRule b a))) j none) + 1
          = countOcc (setSlot s.team j (some (combineRule b a))) :=
        countOcc_set_none_of_some hmid
      have hc2 : countOcc (setSlot s.team j (some (combineRule b a))) = countOcc s.team :=
        countOcc_set_some_of_some _ hb
      omega

theorem combine_merge_correct_witness :
    ∃ i j a b, i ≠ j ∧ getSlot shopTwinTeam.team i = some a ∧
      getSlot shopTwinTeam.team j = some b ∧ a.species = b.species ∧
      getSlot shopTwinTeamAfter.team i = none ∧
      (∃ c, getSlot shopTwinTeamAfter.team j = some c ∧
        c.health = max a.health b.health + 1 ∧
        c.attack = max a.attack b.attack + 1 ∧ c.exp = b.exp + 1) ∧
      countOcc shopTwinTeamAfter.team + 1 = countOcc shopTwinTeam.team :=
  (combine_merge_correct shopTwinTeam (fun n => if n = 0 then 4 else 0) 0
    shopTwinTeamAfter 3 (by decide)).1 (by decide)

/-- C7: in every successful BuyCombineFriend, the on-buy hook fires after the
combine has been applied, and it acts on the team-resident merged Friend: the
merged slot j is temporarily detached (its entry set to none), the hook runs
on the post-merge Friend `combineRule b a`, and the same Friend is reattached
at slot j. -/
theorem buy_combine_on_buy_sequencing (s : Shop) (σ : Dice) (k : Nat) (s' : Shop) (k' : Nat)
    (h1 : σ k % 6 = 1) (h : s.step σ k = .ok ((s', false), k')) :
    ∃ i j a b s3 k2, getSlot s.shop_friends i = some a ∧ getSlot s.team j = some b ∧
      a.species = b.species ∧
      Shop.on_buy
        { s with shop_friends := sortFriends (setSlot s.shop_friends i none)
                 gold := s.gold - 3
                 team := setSlot (setSlot s.team j (some (combineRule b a))) j none }
        (combineRule b a) σ k2 = .ok (s3, k') ∧
      s' = { s3 with team := setSlot s3.team j (some (combineRule b a)) } :=
  (stepBuyCombineFriend_ok_inv (step_ok_dispatch_1 h1 h)).2

theorem buy_combine_on_buy_sequencing_witness :
    ∃ i j a b s3 k2,
      getSlot shopPigMatch.shop_friends i = some a ∧
      getSlot shopPigMatch.team j = some b ∧
      a.species = b.species ∧
      Shop.on_buy
        { shopPigMatch with
            shop_friends := sortFriends (setSlot shopPigMatch.shop_friends i none)
            gold := shopPigMatch.gold - 3
            team := setSlot (setSlot shopPigMatch.team j (some (combineRule b a))) j none }
        (combineRule b a) (fun n => [1, 0, 0].getD n 0) k2 = .ok (s3, 3) ∧
      shopPigMatchAfter = { s3 with team := setSlot s3.team j (some (combineRule b a)) } :=
  buy_combine_on_buy_sequencing shopPigMatch (fun n => [1, 0, 0].getD n 0) 0
    shopPigMatchAfter 3 (by decide) (by decide)

/-- C8: the combine selection never pairs a slot with itself: a combinable
team pair always consists of two distinct occupied slots of equal species
(the candidate matrix has an empty diagonal), a successful CombineFriends
merges along such a pair (emptying the source slot), and a BuyCombineFriend
candidate always pairs an occupied shop offer with an occupied team slot of
equal species. -/
theorem no_self_combination :
    (∀ (team : List (Option Friend)) (i j : Nat), combinable team i j = true →
      i ≠ j ∧ ∃ a b, getSlot team i = some a ∧ getSlot team j = some b ∧
        a.species = b.species) ∧
    (∀ (s : Shop) (σ : Dice) (k : Nat) (s' : Shop) (k' : Nat),
      σ k % 6 = 4 → s.step σ k = .ok ((s', false), k') →
      ∃ i j, i ≠ j ∧ combinable s.team i j = true ∧
        getSlot s'.team i = none ∧ ∃ c, getSlot s'.team j = some c) ∧
    (∀ (s : Shop) (i j : Nat), shopCombinable s i j = true →
      ∃ a b, getSlot s.shop_friends i = some a ∧ getSlot s.team j = some b ∧
        a.species = b.species) := by
  refine ⟨fun team i j hc => combinable_facts hc, ?_, fun s i j hc => shopCombinable_facts hc⟩
  intro s σ k s' k' h4 h
  obtain ⟨i, j, a, b, hne, ha, hb, hsp, hs'⟩ :=
    stepCombineFriends_ok_inv (step_ok_dispatch_4 h4 h)
  subst hs'
  have hilt : i < s.team.length := getSlot_some_lt ha
  have hjlt : j < s.team.length := getSlot_some_lt hb
  refine ⟨i, j, hne, ?_, ?_, combineRule b a, ?_⟩
  · unfold combinable
    rw [ha, hb]
    simp [hne, hsp]
  · dsimp only
    rw [getSlot_setSlot_ne _ (Ne.symm hne)]
    exact getSlot_setSlot_self _ hilt
  · dsimp only
    exact getSlot_setSlot_self _ (by rw [length_setSlot]; exact hjlt)

theorem no_self_combination_witness :
    0 ≠ 2 ∧ ∃ a b, getSlot shopTwinTeam.team 0 = some a ∧
      getSlot shopTwinTeam.team 2 = some b ∧ a.species = b.species :=
  no_self_combination.1 shopTwinTeam.team 0 2 (by decide)

/-- C10: whenever the on-buy hook runs, the triggering Friend occupies no
team slot, so the Otter on-buy buff can only land on a pre-existing team
member: the hook preserves empty team slots; in BuyFriend the purchased
Friend is inserted into the team unchanged after the hook ran; in
BuyCombineFriend the merged Friend is reattached unchanged after the hook
ran. -/
theorem on_buy_buff_lands_elsewhere :
    (∀ (s : Shop) (f : Friend) (σ : Dice) (k : Nat) (s2 : Shop) (k2 : Nat),
      s.on_buy f σ k = .ok (s2, k2) →
      ∀ i, getSlot s.team i = none → getSlot s2.team i = none) ∧
    (∀ (s : Shop) (σ : Dice) (k : Nat) (s' : Shop) (k' : Nat), s.WF →
      σ k % 6 = 0 → s.step σ k = .ok ((s', false), k') →
      ∃ i j f, getSlot s.shop_friends i = some f ∧ getSlot s'.team j = some f) ∧
    (∀ (s : Shop) (σ : Dice) (k : Nat) (s' : Shop) (k' : Nat),
      σ k % 6 = 1 → s.step σ k = .ok ((s', false), k') →
      ∃ i j a b, getSlot s.shop_friends i = some a ∧ getSlot s.team j = some b ∧
        getSlot s'.team j = some (combineRule b a)) := by
  refine ⟨?_, ?_, ?_⟩
  · intro s f σ k s2 k2 h i h0
    exact (on_buy_ok_facts h).2.2.2.2.2 i h0
  · intro s σ k s' k' hwf h0 h
    obtain ⟨-, i, j, f, team2, smid, k2, hjlt, hf, hms, hslot, hob, hs'⟩ :=
      stepBuyFriend_ok_inv (step_ok_dispatch_0 h0 h)
    subst hs'
    obtain ⟨-, -, -, hlen2, -, -⟩ := on_buy_ok_facts hob
    dsimp only at hlen2
    have hteamlen : team2.length = s.team.length :=
      make_space_at_length hms (by rw [hwf.1]; exact hjlt)
    refine ⟨i, j, f, hf, ?_⟩
    dsimp only
    refine getSlot_setSlot_self _ ?_
    rw [hlen2, hteamlen, hwf.1]
    exact hjlt
  · intro s σ k s' k' h1 h
    obtain ⟨-, i, j, a, b, s3, k2, ha, hb, hsp, hob, hs'⟩ :=
      stepBuyCombineFriend_ok_inv (step_ok_dispatch_1 h1 h)
    subst hs'
    obtain ⟨-, -, -, hlen3, -, -⟩ := on_buy_ok_facts hob
    dsimp only at hlen3
    have hjlt : j < s.team.length := getSlot_some_lt hb
    refine ⟨i, j, a, b, ha, hb, ?_⟩
    dsimp only
    refine getSlot_setSlot_self _ ?_
    rw [hlen3, length_setSlot, length_setSlot]
    exact hjlt

theorem on_buy_buff_lands_elsewhere_witness :
    ∃ i j f, getSlot shopLonePig.shop_friends i = some f ∧
      getSlot shopLonePigAfter.team j = some f :=
  on_buy_buff_lands_elsewhere.2.1 shopLonePig (fun n => [0, 0, 1].getD n 0) 0
    shopLonePigAfter 3 (by decide) (by decide) (by decide)

/-- C6: the canonical sort order of the offer arrays is an invariant of
`step`, and in particular the Duck on-sell effect (the only offer-array
mutation that is not followed by a re-sort: it adds the same health bonus to
every occupied shop-friend slot inside `on_sell`) preserves the order. -/
theorem offer_arrays_stay_sorted :
    (∀ (s : Shop) (σ : Dice) (k : Nat) (s' : Shop) (b : Bool) (k' : Nat),
      List.Sorted fle s.shop_friends → List.Sorted gle s.shop_foods →
      s.step σ k = .ok ((s', b), k') →
      List.Sorted fle s'.shop_friends ∧ List.Sorted gle s'.shop_foods) ∧
    (∀ (s : Shop) (a : Friend) (σ : Dice) (k : Nat) (s2 : Shop) (k2 : Nat),
      s.on_sell a σ k = .ok (s2, k2) → List.Sorted fle s.shop_friends →
      List.Sorted fle s2.shop_friends ∧ s2.shop_foods = s.shop_foods) :=
  ⟨fun _ _ _ _ _ _ hf hg h =>
    ⟨(step_ok_facts h).2.2.1 hf, (step_ok_facts h).2.2.2 hg⟩,
   fun _ _ _ _ _ _ h hf =>
    ⟨(on_sell_ok_facts h).2.2.2 hf, (on_sell_ok_facts h).2.1⟩⟩

theorem offer_arrays_stay_sorted_witness :
    List.Sorted fle shopEmptyGold0.shop_friends ∧
    List.Sorted gle shopEmptyGold0.shop_foods :=
  offer_arrays_stay_sorted.1 shopEmptyGold0 (fun _ => 5) 0 shopEmptyGold0 true 1
    (by decide) (by decide) (by decide)

/-! ## Determinism of the engine (C9) -/

theorem stable_dpure {α : Type} (a : α) : Stable (dpure a) := by
  intro σ1 σ2 k a0 k1 h
  obtain ⟨ha, hk⟩ := dpure_ok.mp h
  subst ha
  subst hk
  exact ⟨le_refl _, fun _ => rfl⟩

theorem stable_dfail {α : Type} (e : Panic) : Stable (dfail e : DiceM α) := by
  intro σ1 σ2 k a0 k1 h
  exact absurd h (by simp [dfail])

theorem stable_roll (n : Nat) : Stable (roll n) := by
  intro σ1 σ2 k a k1 h
  obtain ⟨hn, hv, hk⟩ := roll_ok.mp h
  subst hk
  refine ⟨by omega, ?_⟩
  intro hagree
  rw [roll_ok]
  refine ⟨hn, ?_, rfl⟩
  rw [← hagree k (le_refl k) (by omega)]
  exact hv

theorem stable_unwrapD {α : Type} (o : Option α) : Stable (unwrapD o) := by
  intro σ1 σ2 k a k1 h
  obtain ⟨ho, hk⟩ := unwrapD_ok.mp h
  subst hk
  refine ⟨le_refl _, fun _ => ?_⟩
  rw [unwrapD_ok]
  exact ⟨ho, rfl⟩

theorem stable_liftE {α : Type} (m : Except Panic α) : Stable (liftE m) := by
  intro σ1 σ2 k a k1 h
  obtain ⟨hm, hk⟩ := liftE_ok.mp h
  subst hk
  refine ⟨le_refl _, fun _ => ?_⟩
  rw [liftE_ok]
  exact ⟨hm, rfl⟩

theorem stable_dbind {α β : Type} {m : DiceM α} {f : α → DiceM β}
    (hm : Stable m) (hf : ∀ a, Stable (f a)) : Stable (dbind m f) := by
  intro σ1 σ2 k b k2 h
  unfold dbind at h
  cases hmm : m σ1 k with
  | error e =>
    rw [hmm] at h
    exact absurd h (by simp)
  | ok p =>
    cases p with
    | mk a kmid =>
      rw [hmm] at h
      obtain ⟨hle1, hrep1⟩ := hm σ1 σ2 k a kmid hmm
      obtain ⟨hle2, hrep2⟩ := hf a σ1 σ2 kmid b k2 h
      refine ⟨le_trans hle1 hle2, ?_⟩
      intro hagree
      unfold dbind
      rw [hrep1 (fun j hj1 hj2 => hagree j hj1 (lt_of_lt_of_le hj2 hle2))]
      exact hrep2 (fun j hj1 hj2 => hagree j (le_trans hle1 hj1) hj2)

theorem stable_pick_one {α : Type} (l : List (Option α)) : Stable (pick_one l) := by
  unfold pick_one
  split
  · exact stable_dpure _
  · exact stable_dbind (stable_roll _) (fun v => stable_dpure _)

theorem stable_sampleDistinct : ∀ (n : Nat) (os : List Nat), Stable (sampleDistinct n os) := by
  intro n
  induction n with
  | zero =>
    intro os
    unfold sampleDistinct
    exact stable_dpure _
  | succ m ih =>
    intro os
    unfold sampleDistinct
    split
    · exact stable_dpure _
    · exact stable_dbind (stable_roll _)
        (fun v => stable_dbind (ih _) (fun rest => stable_dpure _))

theorem stable_random_friends (team : List (Option Friend)) (n : Nat) :
    Stable (random_friends team n) :=
  stable_sampleDistinct n (occIdxs team)

theorem stable_species_sample : Stable Species.sample := by
  unfold Species.sample
  exact stable_dbind (stable_roll _) (fun v => stable_dpure _)

theorem stable_food_sample : Stable Food.sample := by
  unfold Food.sample
  exact stable_dbind (stable_roll _) (fun v => stable_dpure _)

theorem stable_sampleFriendRow : ∀ (n : Nat), Stable (sampleFriendRow n) := by
  intro n
  induction n with
  | zero =>
    unfold sampleFriendRow
    exact stable_dpure _
  | succ m ih =>
    unfold sampleFriendRow
    exact stable_dbind stable_species_sample
      (fun sp => stable_dbind ih (fun rest => stable_dpure _))

theorem stable_sampleFoodRow : ∀ (n : Nat), Stable (sampleFoodRow n) := by
  intro n
  induction n with
  | zero =>
    unfold sampleFoodRow
    exact stable_dpure _
  | succ m ih =>
    unfold sampleFoodRow
    exact stable_dbind stable_food_sample
      (fun fd => stable_dbind ih (fun rest => stable_dpure _))

theorem stable_reroll (s : Shop) : Stable s.reroll := by
  unfold Shop.reroll
  exact stable_dbind (stable_sampleFriendRow _)
    (fun fs => stable_dbind (stable_sampleFoodRow _) (fun gs => stable_dpure _))

theorem stable_on_buy (s : Shop) (f : Friend) : Stable (s.on_buy f) := by
  unfold Shop.on_buy
  split
  · exact stable_dbind (stable_random_friends _ _)
      (fun is => stable_dbind (stable_liftE _) (fun team2 => stable_dpure _))
  · exact stable_dpure _

theorem stable_on_sell (s : Shop) (a : Friend) : Stable (s.on_sell a) := by
  unfold Shop.on_sell
  split
  · exact stable_dbind (stable_random_friends _ _)
      (fun is => stable_dbind (stable_liftE _) (fun team2 => stable_dpure _))
  · split
    · exact stable_dpure _
    · split
      · exact stable_dpure _
      · exact stable_dpure _

theorem stable_buy_friend (s : Shop) (i j : Nat) : Stable (s.buy_friend i j) := by
  unfold Shop.buy_friend
  split
  · exact stable_dfail _
  · split
    · exact stable_dfail _
    · exact stable_dbind (stable_unwrapD _)
        (fun f => stable_dbind (stable_on_buy _ _) (fun s2 => stable_dpure _))

theorem stable_sell_friend (s : Shop) (j : Nat) : Stable (s.sell_friend j) := by
  unfold Shop.sell_friend
  exact stable_dbind (stable_unwrapD _)
    (fun a => stable_dbind (stable_on_sell _ _) (fun s2 => stable_dpure _))

theorem stable_sample_action : Stable ShopAction.sample := by
  unfold ShopAction.sample
  refine stable_dbind (stable_roll _) ?_
  intro v
  split
  · exact stable_dpure _
  · split
    · exact stable_dpure _
    · split
      · exact stable_dpure _
      · split
        · exact stable_dpure _
        · split
          · exact stable_dpure _
          · split
            · exact stable_dpure _
            · exact stable_dfail _

theorem stable_stepBuyFriend (s : Shop) : Stable (stepBuyFriend s) := by
  unfold stepBuyFriend
  split
  · exact stable_dpure _
  · refine stable_dbind (stable_pick_one _) ?_
    intro oi
    cases oi with
    | none => exact stable_dpure _
    | some i =>
      refine stable_dbind (stable_roll _) ?_
      intro j
      cases make_space_at s.team j with
      | none => exact stable_dpure _
      | some team2 =>
        exact stable_dbind (stable_buy_friend _ _ _) (fun s2 => stable_dpure _)

theorem stable_stepBuyFood (s : Shop) : Stable (stepBuyFood s) := by
  unfold stepBuyFood
  split
  · exact stable_dpure _
  · refine stable_dbind (stable_pick_one _) ?_
    intro oi
    cases oi with
    | none => exact stable_dpure _
    | some i =>
      refine stable_dbind (stable_pick_one _) ?_
      intro oj
      cases oj with
      | none => exact stable_dpure _
      | some j =>
        exact stable_dbind (stable_liftE _) (fun s2 => stable_dpure _)

theorem stable_stepSellFriend (s : Shop) : Stable (stepSellFriend s) := by
  unfold stepSellFriend
  refine stable_dbind (stable_pick_one _) ?_
  intro oj
  cases oj with
  | none => exact stable_dpure _
  | some j => exact stable_dbind (stable_sell_friend _ _) (fun s2 => stable_dpure _)

theorem stable_stepReroll (s : Shop) : Stable (stepReroll s) := by
  unfold stepReroll
  split
  · exact stable_dpure _
  · split
    · exact stable_dbind (stable_reroll _) (fun s2 => stable_dpure _)
    · exact stable_dpure _

theorem stable_stepCombineFriends (s : Shop) : Stable (stepCombineFriends s) := by
  unfold stepCombineFriends
  refine stable_dbind (stable_roll _) ?_
  intro v
  cases (candIdxs s.team)[v]? with
  | none => exact stable_dpure _
  | some i =>
    refine stable_dbind (stable_roll _) ?_
    intro w
    refine stable_dbind (stable_unwrapD _) ?_
    intro j
    refine stable_dbind (stable_unwrapD _) ?_
    intro friend
    exact stable_dbind (stable_liftE _) (fun s2 => stable_dpure _)

theorem stable_stepBuyCombineFriend (s : Shop) : Stable (stepBuyCombineFriend s) := by
  unfold stepBuyCombineFriend
  split
  · exact stable_dpure _
  · refine stable_dbind (stable_roll _) ?_
    intro v
    cases (shopCandIdxs s)[v]? with
    | none => exact stable_dpure _
    | some i =>
      refine stable_dbind (stable_roll _) ?_
      intro w
      refine stable_dbind (stable_unwrapD _) ?_
      intro j
      refine stable_dbind (stable_unwrapD _) ?_
      intro friend
      refine stable_dbind (stable_liftE _) ?_
      intro s2
      refine stable_dbind (stable_unwrapD _) ?_
      intro merged
      exact stable_dbind (stable_on_buy _ _) (fun s3 => stable_dpure _)

theorem stable_dispatch (s : Shop) (a : ShopAction) : Stable (s.dispatch a) := by
  cases a with
  | BuyFriend => exact stable_stepBuyFriend s
  | BuyCombineFriend => exact stable_stepBuyCombineFriend s
  | SellFriend => exact stable_stepSellFriend s
  | BuyFood => exact stable_stepBuyFood s
  | CombineFriends => exact stable_stepCombineFriends s
  | Reroll => exact stable_stepReroll s

theorem stable_step (s : Shop) : Stable s.step := by
  unfold Shop.step
  exact stable_dbind stable_sample_action (fun a => stable_dispatch s a)

theorem stable_runTrace : ∀ (fuel : Nat) (s : Shop), Stable (runTrace fuel s) := by
  intro fuel
  induction fuel with
  | zero =>
    intro s
    unfold runTrace
    exact stable_dpure _
  | succ m ih =>
    intro s
    unfold runTrace
    refine stable_dbind stable_sample_action ?_
    intro a
    refine stable_dbind (stable_dispatch s a) ?_
    intro r
    cases r with
    | mk s2 b =>
      cases b with
      | true => exact stable_dpure _
      | false => exact stable_dbind (ih s2) (fun t => stable_dpure _)

/-- C9: the engine is deterministic given its random source: a single `step`
and any driver run (`runTrace`, which also records the action trace) read a
window of the dice stream, and any stream agreeing on that window reproduces
the identical resulting Shop state, termination boolean and action trace. -/
theorem run_deterministic :
    (∀ (s : Shop) (σ1 σ2 : Dice) (k : Nat) (r : Shop × Bool) (k' : Nat),
      s.step σ1 k = .ok (r, k') → (∀ j, k ≤ j → j < k' → σ1 j = σ2 j) →
      s.step σ2 k = .ok (r, k')) ∧
    (∀ (fuel : Nat) (s : Shop) (σ1 σ2 : Dice) (k : Nat)
      (out : Shop × Bool × List ShopAction) (k' : Nat),
      runTrace fuel s σ1 k = .ok (out, k') → (∀ j, k ≤ j → j < k' → σ1 j = σ2 j) →
      runTrace fuel s σ2 k = .ok (out, k')) :=
  ⟨fun s σ1 σ2 k r k' h hagree => ((stable_step s) σ1 σ2 k r k' h).2 hagree,
   fun fuel s σ1 σ2 k out k' h hagree =>
    ((stable_runTrace fuel s) σ1 σ2 k out k' h).2 hagree⟩

theorem run_deterministic_witness :
    runTrace 1 shopEmptyGold0 (fun j => if j = 0 then 5 else 99) 0 =
      .ok ((shopEmptyGold0, true, [.Reroll]), 1) :=
  run_deterministic.2 1 shopEmptyGold0 (fun _ => 5) (fun j => if j = 0 then 5 else 99) 0
    (shopEmptyGold0, true, [.Reroll]) 1 (by decide)
    (by
      intro j h0 hj
      have hj0 : j = 0 := by omega
      subst hj0
      rfl)

end SAS
